import Mathlib

/-!
Verification of the Interaction Calculus evaluator in `src/ic-mini/src/ic.py`.

The development shallowly embeds the term model, pretty-printer, parser and
reducer of the Python module.  Strings are modelled as `List Char` (Python
strings are sequences of code points, and `'λ'`, `'₀'`, `'₁'` are single code
points in both worlds).  The reducer's recursion has no obvious structural
measure (rule results are re-reduced), so it takes a fuel argument that stands
for the call stack; the default fuel is far larger than any depth reached by
the inputs considered here, and fuel exhaustion returns the term unchanged.
The `ValueError` that `compute_op` raises on an unknown operator is modelled
by `Option`: a `none` result of the reducer is an escaped `ValueError`.
-/

namespace IC

/-- The `Term` AST: one constructor per dataclass in ic.py
(`Var`, `Dp0`, `Dp1`, `Num`, `Lam`, `App`, `Sup`, `Dup`, `Era`, `Op2`, `Pair`). -/
inductive Term : Type
  | Var (name : String)
  | Dp0 (name : String)
  | Dp1 (name : String)
  | Num (value : Int)
  | Lam (var : String) (body : Term)
  | App (func : Term) (arg : Term)
  | Sup (label : String) (fst : Term) (snd : Term)
  | Dup (name : String) (label : String) (value : Term) (body : Term)
  | Era
  | Op2 (op : String) (left : Term) (right : Term)
  | Pair (fst : Term) (snd : Term)
deriving DecidableEq, Repr

/-- Decimal digits of a natural number, most significant first, with fuel to
keep the recursion structural (the fuel `n + 1` always suffices).
Mirrors Python `str` on a non-negative `int`. -/
def natStrAux : Nat → Nat → List Char
  | 0, _ => []
  | f + 1, n =>
    if n < 10 then [Char.ofNat (48 + n)]
    else natStrAux f (n / 10) ++ [Char.ofNat (48 + n % 10)]

/-- Decimal representation of a natural number, as Python `str` produces it. -/
def natStr (n : Nat) : List Char := natStrAux (n + 1) n

/-- Python `str` on an `int`: a minus sign followed by the digits when
negative, the digits otherwise. -/
def intStr (v : Int) : List Char :=
  if v < 0 then '-' :: natStr (-v).toNat else natStr v.toNat

/-- The pretty-printer: `Term.__str__` of every variant, producing the list of
characters Python's `str` would produce. -/
def pretty : Term → List Char
  | .Var n => n.data
  | .Dp0 n => n.data ++ ['₀']
  | .Dp1 n => n.data ++ ['₁']
  | .Num v => intStr v
  | .Lam x b => 'λ' :: x.data ++ '.' :: pretty b
  | .App f a => '(' :: (pretty f ++ ' ' :: (pretty a ++ [')']))
  | .Sup l a b => '&' :: (l.data ++ '{' :: (pretty a ++ ',' :: ' ' :: (pretty b ++ ['}'])))
  | .Dup x l v b =>
      '!' :: ' ' :: (x.data ++ ' ' :: '&' :: (l.data ++ '=' :: ' ' ::
        (pretty v ++ ';' :: ' ' :: pretty b)))
  | .Era => ['&', '{', '}']
  | .Op2 op l r => '(' :: (pretty l ++ ' ' :: (op.data ++ ' ' :: (pretty r ++ [')'])))
  | .Pair a b => '(' :: (pretty a ++ ',' :: ' ' :: (pretty b ++ [')']))

/-- `Evaluator.substitute`: replace every `Var(var)` in the term by `value`,
stopping under a `Lam` that rebinds the same name; `Dp0`/`Dp1` are never
targets. -/
def substitute (t : Term) (var : String) (value : Term) : Term :=
  match t with
  | .Var n => if n = var then value else .Var n
  | .Dp0 n => .Dp0 n
  | .Dp1 n => .Dp1 n
  | .Num v => .Num v
  | .Era => .Era
  | .Lam x b => if x = var then .Lam x b else .Lam x (substitute b var value)
  | .App f a => .App (substitute f var value) (substitute a var value)
  | .Sup l a b => .Sup l (substitute a var value) (substitute b var value)
  | .Dup n l v b => .Dup n l (substitute v var value) (substitute b var value)
  | .Op2 op l r => .Op2 op (substitute l var value) (substitute r var value)
  | .Pair a b => .Pair (substitute a var value) (substitute b var value)

/-- `Evaluator.substitute_dp`: replace every `Dp0(name)` by `val0` and every
`Dp1(name)` by `val1`; `Var` occurrences are not targets and no binder stops
the traversal. -/
def substitute_dp (t : Term) (name : String) (val0 val1 : Term) : Term :=
  match t with
  | .Dp0 n => if n = name then val0 else .Dp0 n
  | .Dp1 n => if n = name then val1 else .Dp1 n
  | .Var n => .Var n
  | .Num v => .Num v
  | .Era => .Era
  | .Lam x b => .Lam x (substitute_dp b name val0 val1)
  | .App f a => .App (substitute_dp f name val0 val1) (substitute_dp a name val0 val1)
  | .Sup l a b => .Sup l (substitute_dp a name val0 val1) (substitute_dp b name val0 val1)
  | .Dup n l v b => .Dup n l (substitute_dp v name val0 val1) (substitute_dp b name val0 val1)
  | .Op2 op l r => .Op2 op (substitute_dp l name val0 val1) (substitute_dp r name val0 val1)
  | .Pair a b => .Pair (substitute_dp a name val0 val1) (substitute_dp b name val0 val1)

/-- `Evaluator.contains_dp`: does the term contain `Dp0(name)` (when
`idx = 0`) or `Dp1(name)` (when `idx = 1`)? -/
def contains_dp (t : Term) (name : String) (idx : Nat) : Bool :=
  match t with
  | .Dp0 n => n = name && idx = 0
  | .Dp1 n => n = name && idx = 1
  | .Var _ => false
  | .Num _ => false
  | .Era => false
  | .Lam _ b => contains_dp b name idx
  | .App f a => contains_dp f name idx || contains_dp a name idx
  | .Sup _ a b => contains_dp a name idx || contains_dp b name idx
  | .Dup _ _ v b => contains_dp v name idx || contains_dp b name idx
  | .Op2 _ l r => contains_dp l name idx || contains_dp r name idx
  | .Pair a b => contains_dp a name idx || contains_dp b name idx

/-- `Evaluator.fresh_name`: increment the counter and build `"$" + pre + str(counter)`. -/
def fresh_name (c : Nat) (pre : String) : String × Nat :=
  (String.mk ('$' :: pre.data ++ natStr (c + 1)), c + 1)

/-- `Evaluator.compute_op`; `none` models the `ValueError` raised on an
unknown operator.  Python `//` is floor division, hence `Int.fdiv`. -/
def compute_op (op : String) (a b : Int) : Option Int :=
  if op = "+" then some (a + b)
  else if op = "-" then some (a - b)
  else if op = "*" then some (a * b)
  else if op = "/" then some (if b = 0 then 0 else Int.fdiv a b)
  else none

/-- `Evaluator.reduce`, with `reduce_app`, `reduce_dup` and `reduce_op2`
inlined at their call sites (they are only called from here).  The fuel
models the Python call stack: every nested `self.reduce(...)` call runs at
`fuel - 1`, and exhausted fuel returns the term unchanged.  `none` is an
escaped `ValueError` from `compute_op`. -/
def reduce : Nat → Nat → Term → Option (Term × Nat)
  | 0, c, t => some (t, c)
  | f + 1, c, t =>
    match t with
    | .Num v => some (.Num v, c)
    | .Var n => some (.Var n, c)
    | .Dp0 n => some (.Dp0 n, c)
    | .Dp1 n => some (.Dp1 n, c)
    | .Era => some (.Era, c)
    | .App fn a =>
      -- reduce_app
      match reduce f c fn with
      | none => none
      | some (func, c₁) =>
        match func with
        | .Lam v b => some (substitute b v a, c₁)
        | .Sup l sa sb =>
          let (x, c₂) := fresh_name c₁ "x"
          some (.Dup x l a (.Sup l (.App sa (.Dp0 x)) (.App sb (.Dp1 x))), c₂)
        | .Era => some (.Era, c₁)
        | func =>
          match reduce f c₁ a with
          | none => none
          | some (a', c₂) => some (.App func a', c₂)
    | .Dup x l v b =>
      -- reduce_dup
      match reduce f c v with
      | none => none
      | some (value, c₁) =>
        if !contains_dp b x 0 && !contains_dp b x 1 then
          reduce f c₁ b
        else
          match value with
          | .Num n => reduce f c₁ (substitute_dp b x (.Num n) (.Num n))
          | .Era => reduce f c₁ (substitute_dp b x .Era .Era)
          | .Sup l' sa sb =>
            if l' = l then reduce f c₁ (substitute_dp b x sa sb)
            else
              let (an, c₂) := fresh_name c₁ "a"
              let (bn, c₃) := fresh_name c₂ "b"
              reduce f c₃ (.Dup an l sa (.Dup bn l sb
                (substitute_dp b x (.Sup l' (.Dp0 an) (.Dp0 bn))
                  (.Sup l' (.Dp1 an) (.Dp1 bn)))))
          | .Lam vv vb =>
            let (x0, c₂) := fresh_name c₁ "x"
            let (x1, c₃) := fresh_name c₂ "x"
            let (bn, c₄) := fresh_name c₃ "b"
            let nb := substitute vb vv (.Sup l (.Var x0) (.Var x1))
            reduce f c₄ (.Dup bn l nb
              (substitute_dp b x (.Lam x0 (.Dp0 bn)) (.Lam x1 (.Dp1 bn))))
          | .Pair pa pb =>
            let (an, c₂) := fresh_name c₁ "a"
            let (bn, c₃) := fresh_name c₂ "b"
            reduce f c₃ (.Dup an l pa (.Dup bn l pb
              (substitute_dp b x (.Pair (.Dp0 an) (.Dp0 bn))
                (.Pair (.Dp1 an) (.Dp1 bn)))))
          | value =>
            -- fallthrough: a value whose head matches no DUP rule
            if pretty value ≠ pretty v then some (.Dup x l value b, c₁)
            else
              -- both final branches of reduce_dup return this same term
              match reduce f c₁ b with
              | none => none
              | some (nb, c₂) => some (.Dup x l value nb, c₂)
    | .Lam x b =>
      match reduce f c b with
      | none => none
      | some (b', c₁) => some (.Lam x b', c₁)
    | .Sup l a b =>
      match reduce f c a with
      | none => none
      | some (a', c₁) =>
        match reduce f c₁ b with
        | none => none
        | some (b', c₂) => some (.Sup l a' b', c₂)
    | .Op2 op lt rt =>
      -- reduce_op2
      match reduce f c lt with
      | none => none
      | some (left, c₁) =>
        match reduce f c₁ rt with
        | none => none
        | some (right, c₂) =>
          match left, right with
          | .Num a, .Num b =>
            match compute_op op a b with
            | some v => some (.Num v, c₂)
            | none => none
          | left, right =>
            match left with
            | .Sup ll la lb =>
              let (y, c₃) := fresh_name c₂ "y"
              some (.Dup y ll right
                (.Sup ll (.Op2 op la (.Dp0 y)) (.Op2 op lb (.Dp1 y))), c₃)
            | left =>
              match right with
              | .Sup rl ra rb => some (.Sup rl (.Op2 op left ra) (.Op2 op left rb), c₂)
              | right =>
                match left with
                | .Era => some (.Era, c₂)
                | left =>
                  match right with
                  | .Era => some (.Era, c₂)
                  | right => some (.Op2 op left right, c₂)
    | .Pair a b =>
      match reduce f c a with
      | none => none
      | some (a', c₁) =>
        match reduce f c₁ b with
        | none => none
        | some (b', c₂) => some (.Pair a' b', c₂)

/-- The fuel every top-level `reduce` call runs at; far deeper than any call
stack reached by the inputs considered in this development. -/
def reduceFuel : Nat := 100000

/-- The string Python's `str(None)` produces; `evaluate` compares the current
term's printout against it on the first loop iteration (`prev` starts as
`None`). -/
def noneStr : List Char := ['N', 'o', 'n', 'e']

/-- The loop of `Evaluator.evaluate`: repeat one `reduce` pass while the
printed form changes and fewer than `max_steps` passes were made.  `fuel`
is `max_steps - steps`; the result carries the final term, the fresh-name
counter and the step count the evaluator would expose. -/
def evalGo : Nat → Nat → Nat → List Char → Term → Option (Term × Nat × Nat)
  | 0, c, steps, _, t => some (t, c, steps)
  | f + 1, c, steps, prev, t =>
    if pretty t = prev then some (t, c, steps)
    else
      match reduce reduceFuel c t with
      | none => none
      | some (t', c') => evalGo f c' (steps + 1) (pretty t) t'

/-- `Evaluator.evaluate`: normalise a term, starting from fresh-name counter
`c`, with the default safety bound `max_steps = 10000`. -/
def evaluate (c : Nat) (t : Term) : Option (Term × Nat × Nat) :=
  evalGo 10000 c 0 noneStr t

/-!
The parser.  The Python `Parser` walks an absolute position over a fixed
text; we carry the pair of the remaining input (the suffix of the text from
the current position) and the absolute position, which keeps every scanning
loop structurally recursive.  Each error constructor matches one `raise`
site; note that the `"Unexpected end of input"` error carries no offset,
exactly as in the source.
-/

/-- The `ParseError` values of ic.py, one constructor per `raise` site:
trailing input after a complete term (in `parse`), a failed `consume`,
end of input in `parse_term`, and an unexpected character starting a term. -/
inductive ParseErr : Type
  | trailingChar (pos : Nat) (c : Char)
  | expectedAt (tok : List Char) (pos : Nat)
  | unexpectedEnd
  | unexpectedCharAt (c : Char) (pos : Nat)
deriving DecidableEq, Repr

/-- Python's whitespace set in `skip_whitespace`: space, tab, newline,
carriage return. -/
def isWs (c : Char) : Bool := c = ' ' || c = '\t' || c = '\n' || c = '\r'

/-- `Parser.skip_whitespace` on the remaining input and absolute position. -/
def skip_whitespace : List Char → Nat → List Char × Nat
  | [], pos => ([], pos)
  | c :: cs, pos => if isWs c then skip_whitespace cs (pos + 1) else (c :: cs, pos)

/-- `Parser.consume`: check that the expected characters are next, advance
past them and skip trailing whitespace. -/
def consume (expected : List Char) (rest : List Char) (pos : Nat) :
    Except ParseErr (List Char × Nat) :=
  if rest.take expected.length = expected then
    .ok (skip_whitespace (rest.drop expected.length) (pos + expected.length))
  else .error (.expectedAt expected pos)

/-- The digit-scanning loop of `parse_num`: returns the scanned digits, the
remaining input and the new position. -/
def read_digits : List Char → Nat → List Char × List Char × Nat
  | [], pos => ([], [], pos)
  | c :: cs, pos =>
    if c.isDigit then
      let (ds, r, p) := read_digits cs (pos + 1)
      (c :: ds, r, p)
    else ([], c :: cs, pos)

/-- Python `int` on a string of decimal digits. -/
def digitsToNat (ds : List Char) : Nat :=
  ds.foldl (fun acc c => acc * 10 + (c.toNat - 48)) 0

/-- `parse_num`: scan digits, convert, skip trailing whitespace.  Only called
when the next character is a digit. -/
def parse_num (rest : List Char) (pos : Nat) : Term × List Char × Nat :=
  let (ds, r, p) := read_digits rest pos
  let (r', p') := skip_whitespace r p
  (.Num (Int.ofNat (digitsToNat ds)), r', p')

/-- The identifier loop of `parse_var`: ASCII alphanumerics and underscore,
stopping before an underscore that is followed by `'0'` or `'1'`. -/
def read_name : List Char → Nat → List Char × List Char × Nat
  | [], pos => ([], [], pos)
  | c :: cs, pos =>
    if c.toNat < 128 && (c.isAlphanum || c = '_') then
      if c = '_' && (cs.head? = some '0' || cs.head? = some '1') then
        ([], c :: cs, pos)
      else
        let (nm, r, p) := read_name cs (pos + 1)
        (c :: nm, r, p)
    else ([], c :: cs, pos)

/-- `parse_var`: scan a name, then classify by the subscript that follows:
`'₀'`/`"_0"` gives `Dp0`, `'₁'`/`"_1"` gives `Dp1`, anything else a `Var`.
This function cannot fail. -/
def parse_var (rest : List Char) (pos : Nat) : Term × List Char × Nat :=
  let (nm, r, p) := read_name rest pos
  let name := String.mk nm
  match r with
  | '₀' :: r' => let (r'', p') := skip_whitespace r' (p + 1); (.Dp0 name, r'', p')
  | '₁' :: r' => let (r'', p') := skip_whitespace r' (p + 1); (.Dp1 name, r'', p')
  | '_' :: '0' :: r' => let (r'', p') := skip_whitespace r' (p + 2); (.Dp0 name, r'', p')
  | '_' :: '1' :: r' => let (r'', p') := skip_whitespace r' (p + 2); (.Dp1 name, r'', p')
  | r => let (r'', p') := skip_whitespace r p; (.Var name, r'', p')

/-- Python `str.isalnum` restricted to the characters that occur in this
development: the ASCII alphanumerics, and the non-ASCII letters and
digit-like characters of the surface syntax (`'λ'`, `'₀'`, `'₁'`), which
Python also classifies as alphanumeric. -/
def pyIsAlnum (c : Char) : Bool := c.isAlphanum || c = 'λ' || c = '₀' || c = '₁'

/-- The identifier loop shared by `parse_lam`, `parse_sup` and `parse_dup`:
`isalnum` characters or underscore, with no subscript lookahead. -/
def read_ident : List Char → Nat → List Char × List Char × Nat
  | [], pos => ([], [], pos)
  | c :: cs, pos =>
    if pyIsAlnum c || c = '_' then
      let (nm, r, p) := read_ident cs (pos + 1)
      (c :: nm, r, p)
    else ([], c :: cs, pos)

/-- Python `str.isalpha` restricted likewise (`'λ'` is dispatched before the
alpha test in `parse_term`, so only ASCII letters matter here). -/
def pyIsAlpha (c : Char) : Bool := c.isAlpha

/-- Python `str.isdigit` restricted likewise: no input considered here
reaches the term dispatch with a non-ASCII digit-like character first. -/
def pyIsDigit (c : Char) : Bool := c.isDigit

/-- `Parser.parse_term`, with `parse_lam`, `parse_sup`, `parse_dup` and
`parse_paren` inlined at their call sites (they are only called from here).
The fuel bounds the nesting depth; every recursive call first consumes at
least one character, so the fuel `length + 1` used by `parse` always
suffices.  Fuel exhaustion cannot occur on such calls; it reports the
end-of-input error. -/
def parse_term : Nat → List Char → Nat → Except ParseErr (Term × List Char × Nat)
  | 0, _, _ => .error .unexpectedEnd
  | fuel + 1, rest0, pos0 =>
    let (rest, pos) := skip_whitespace rest0 pos0
    match rest with
    | [] => .error .unexpectedEnd
    | c :: _ =>
      if rest.take 3 = ['&', '{', '}'] then do
        let (r, p) ← consume ['&', '{', '}'] rest pos
        .ok (.Era, r, p)
      else if c = '&' then do
        -- parse_sup
        let (r, p) ← consume ['&'] rest pos
        let (lab, r, p) := read_ident r p
        let label := if lab.isEmpty then "L" else String.mk lab
        let (r, p) := skip_whitespace r p
        let (r, p) ← consume ['{'] r p
        let (a, r, p) ← parse_term fuel r p
        let (r, p) ← consume [','] r p
        let (b, r, p) ← parse_term fuel r p
        let (r, p) ← consume ['}'] r p
        .ok (.Sup label a b, r, p)
      else if c = '!' then do
        -- parse_dup
        let (r, p) ← consume ['!'] rest pos
        let (nm, r, p) := read_ident r p
        let (r, p) := skip_whitespace r p
        let (r, p) ← consume ['&'] r p
        let (lab, r, p) := read_ident r p
        let label := if lab.isEmpty then "L" else String.mk lab
        let (r, p) := skip_whitespace r p
        let (r, p) ← consume ['='] r p
        let (v, r, p) ← parse_term fuel r p
        let (r, p) ← consume [';'] r p
        let (b, r, p) ← parse_term fuel r p
        .ok (.Dup (String.mk nm) label v b, r, p)
      else if c = 'λ' || c = '\\' then do
        -- parse_lam
        let (r, p) ← if c = 'λ' then consume ['λ'] rest pos else consume ['\\'] rest pos
        let (v, r, p) := read_ident r p
        let (r, p) := skip_whitespace r p
        let (r, p) ← consume ['.'] r p
        let (b, r, p) ← parse_term fuel r p
        .ok (.Lam (String.mk v) b, r, p)
      else if c = '(' then do
        -- parse_paren
        let (r, p) ← consume ['('] rest pos
        let (first, r, p) ← parse_term fuel r p
        match r with
        | ',' :: _ => do
          let (r, p) ← consume [','] r p
          let (second, r, p) ← parse_term fuel r p
          let (r, p) ← consume [')'] r p
          .ok (.Pair first second, r, p)
        | _ =>
          match r.head? with
          | some op =>
            if op = '+' || op = '-' || op = '*' || op = '/' then do
              let (r, p) ← consume [op] r p
              let (right, r, p) ← parse_term fuel r p
              let (r, p) ← consume [')'] r p
              .ok (.Op2 (String.mk [op]) first right, r, p)
            else do
              let (second, r, p) ← parse_term fuel r p
              let (r, p) ← consume [')'] r p
              .ok (.App first second, r, p)
          | none => do
            let (second, r, p) ← parse_term fuel r p
            let (r, p) ← consume [')'] r p
            .ok (.App first second, r, p)
      else if pyIsDigit c then
        .ok (parse_num rest pos)
      else if pyIsAlpha c || c = '_' then
        .ok (parse_var rest pos)
      else
        .error (.unexpectedCharAt c pos)

/-- `Parser.parse` / the module-level `parse`: skip leading whitespace, parse
one term, skip trailing whitespace, and fail if input remains. -/
def parse (s : List Char) : Except ParseErr Term :=
  let (r0, p0) := skip_whitespace s 0
  match parse_term (s.length + 1) r0 p0 with
  | .error e => .error e
  | .ok (t, r1, p1) =>
    let (r2, p2) := skip_whitespace r1 p1
    match r2 with
    | [] => .ok t
    | c :: _ => .error (.trailingChar p2 c)

/-!
Basic facts about the printer and the driver loop used throughout the
theorems below.
-/

/-- The ten decimal digit characters. -/
def digitChars : List Char := ['0', '1', '2', '3', '4', '5', '6', '7', '8', '9']

theorem natStrAux_head : ∀ f n, n < f →
    ∃ d l, natStrAux f n = d :: l ∧ d ∈ digitChars := by
  intro f
  induction f with
  | zero => intro n h; omega
  | succ g ih =>
    intro n h
    by_cases h10 : n < 10
    · refine ⟨Char.ofNat (48 + n), [], by simp [natStrAux, h10], ?_⟩
      interval_cases n <;> decide
    · have hn : 10 ≤ n := by omega
      have hdiv : n / 10 < g := by
        have : n / 10 < n := Nat.div_lt_self (by omega) (by omega)
        omega
      obtain ⟨d, l, hd, hmem⟩ := ih (n / 10) hdiv
      exact ⟨d, l ++ [Char.ofNat (48 + n % 10)], by simp [natStrAux, h10, hd], hmem⟩

theorem natStr_head (n : Nat) : ∃ d l, natStr n = d :: l ∧ d ∈ digitChars :=
  natStrAux_head (n + 1) n (Nat.lt_succ_self n)

theorem intStr_head (v : Int) :
    ∃ d l, intStr v = d :: l ∧ (d = '-' ∨ d ∈ digitChars) := by
  unfold intStr
  by_cases h : v < 0
  · exact ⟨'-', natStr (-v).toNat, by simp [h], Or.inl rfl⟩
  · obtain ⟨d, l, hd, hmem⟩ := natStr_head v.toNat
    exact ⟨d, l, by simp [h, hd], Or.inr hmem⟩

/-- The printed form of a numeral never starts with a character other than a
minus sign or a digit. -/
theorem pretty_num_ne (v : Int) (c : Char) (l : List Char)
    (hc : c ≠ '-') (hd : c ∉ digitChars) : pretty (.Num v) ≠ c :: l := by
  intro h
  obtain ⟨d, l', hv, hmem⟩ := intStr_head v
  rw [show pretty (.Num v) = intStr v from rfl, hv] at h
  injection h with h1 _
  subst h1
  rcases hmem with h' | h'
  · exact hc h'
  · exact hd h'

theorem reduce_num (f c : Nat) (v : Int) : reduce f c (.Num v) = some (.Num v, c) := by
  cases f <;> rfl

theorem reduce_var (f c : Nat) (n : String) : reduce f c (.Var n) = some (.Var n, c) := by
  cases f <;> rfl

/-- OP2-NUM at any positive fuel: both operands are numerals, so one nested
pass leaves them unchanged and `compute_op` fires. -/
theorem reduce_op2_num (g c : Nat) (op : String) (a b v : Int)
    (h : compute_op op a b = some v) :
    reduce (g + 1) c (.Op2 op (.Num a) (.Num b)) = some (.Num v, c) := by
  simp [reduce, reduce_num, h]

theorem evalGo_stop (f c s : Nat) (prev : List Char) (t : Term)
    (h : pretty t = prev) : evalGo (f + 1) c s prev t = some (t, c, s) := by
  simp [evalGo, h]

theorem evalGo_step (f c s : Nat) (prev : List Char) (t t' : Term) (c' : Nat)
    (hne : pretty t ≠ prev) (hred : reduce reduceFuel c t = some (t', c')) :
    evalGo (f + 1) c s prev t = evalGo f c' (s + 1) (pretty t) t' := by
  simp [evalGo, hne, hred]

theorem evalGo_none (f c s : Nat) (prev : List Char) (t : Term)
    (hne : pretty t ≠ prev) (hred : reduce reduceFuel c t = none) :
    evalGo (f + 1) c s prev t = none := by
  simp [evalGo, hne, hred]

/-- DUP-UNUSED: when the body mentions neither projection, one pass of the
reducer on the `Dup` first reduces the value (possibly moving the counter)
and then returns one pass on the body. -/
theorem reduce_dup_unused (f c : Nat) (x l : String) (V B V' : Term) (c₁ : Nat)
    (hV : reduce f c V = some (V', c₁))
    (h0 : contains_dp B x 0 = false) (h1 : contains_dp B x 1 = false) :
    reduce (f + 1) c (.Dup x l V B) = reduce f c₁ B := by
  simp [reduce, hV, h0, h1]

/-- A term whose single pass reaches a `reduce`-fixpoint in one step
normalises in exactly two loop iterations. -/
theorem evaluate_two_steps (c : Nat) (t t₁ : Term) (c₁ : Nat)
    (h0 : pretty t ≠ noneStr)
    (h1 : reduce reduceFuel c t = some (t₁, c₁))
    (h2 : pretty t₁ ≠ pretty t)
    (h3 : reduce reduceFuel c₁ t₁ = some (t₁, c₁)) :
    evaluate c t = some (t₁, c₁, 2) := by
  show evalGo (9999 + 1) c 0 noneStr t = some (t₁, c₁, 2)
  rw [evalGo_step 9999 c 0 noneStr t t₁ c₁ h0 h1]
  show evalGo (9998 + 1) c₁ 1 (pretty t) t₁ = some (t₁, c₁, 2)
  rw [evalGo_step 9998 c₁ 1 (pretty t) t₁ t₁ c₁ h2 h3]
  exact evalGo_stop 9997 c₁ 2 (pretty t₁) t₁ rfl

/-!
Claim C1.  The claim states that `/` truncates toward zero; the code uses
Python's `//`, which is floor division, so they disagree on negative
operands.
-/

/-- C1 (counterexample): normalising `((-1) / 2)` yields `Num (-1)` (floor
division), not the `Num 0` that truncation toward zero would give, refuting
the claim at the concrete input `Op2("/", Num (-1), Num 2)`. -/
theorem C1_counterexample :
    evaluate 0 (.Op2 "/" (.Num (-1)) (.Num 2)) = some (.Num (-1), 0, 2) ∧
    (Term.Num (-1) : Term) ≠ Term.Num 0 := by
  exact ⟨rfl, by decide⟩

/-- C1 (amended): for all integers `a` and `b`, normalising
`Op2(op, Num a, Num b)` yields `Num (a op b)` computed with exact integer
arithmetic where `/` is Python floor division (rounding toward negative
infinity) and division by zero returns `0` (not an error); `compute_op`
packages exactly these four operations. -/
theorem C1_arithmetic (op : String) (a b v : Int) (h : compute_op op a b = some v) :
    evaluate 0 (.Op2 op (.Num a) (.Num b)) = some (.Num v, 0, 2) := by
  apply evaluate_two_steps
  · intro hx
    have h2 := congrArg List.head? hx
    simp [pretty, noneStr] at h2
  · exact reduce_op2_num 99999 0 op a b v h
  · exact pretty_num_ne v '(' _ (by decide) (by decide)
  · exact reduce_num reduceFuel 0 v

/-- C1 (witness): the amended theorem applied at `(-7) / 2 = -4` (floor),
with `compute_op` evaluating as claimed. -/
theorem C1_witness :
    compute_op "/" (-7) 2 = some (-4) ∧
    evaluate 0 (.Op2 "/" (.Num (-7)) (.Num 2)) = some (.Num (-4), 0, 2) :=
  ⟨by decide, C1_arithmetic "/" (-7) 2 (-4) (by decide)⟩

/-!
Claim C2.  The fresh-name counter lives on the `Evaluator` object and
`evaluate` does not reset it, so two successive calls on one evaluator can
print differently whenever fresh names survive into the normal form.
-/

/-- C2 (counterexample): on the closed term `(&L{λu.u, λv.v} λw.w)` the
first `evaluate` call (counter 0) returns `&L{λ$x2.$x2, λ$x3.$x3}` leaving
the counter at 4; a second call on the same evaluator starts at counter 4
and returns `&L{λ$x6.$x6, λ$x7.$x7}`, which is not pretty-equal. -/
theorem C2_counterexample :
    evaluate 0 (.App (.Sup "L" (.Lam "u" (.Var "u")) (.Lam "v" (.Var "v")))
        (.Lam "w" (.Var "w"))) =
      some (.Sup "L" (.Lam "$x2" (.Var "$x2")) (.Lam "$x3" (.Var "$x3")), 4, 3) ∧
    evaluate 4 (.App (.Sup "L" (.Lam "u" (.Var "u")) (.Lam "v" (.Var "v")))
        (.Lam "w" (.Var "w"))) =
      some (.Sup "L" (.Lam "$x6" (.Var "$x6")) (.Lam "$x7" (.Var "$x7")), 8, 3) ∧
    pretty (.Sup "L" (.Lam "$x6" (.Var "$x6")) (.Lam "$x7" (.Var "$x7"))) ≠
      pretty (.Sup "L" (.Lam "$x2" (.Var "$x2")) (.Lam "$x3" (.Var "$x3"))) := by
  exact ⟨rfl, rfl, by decide⟩

/-- C2 (amended): two successive normalisations of the same term produce
pretty-equal outputs whenever the first normalisation consumes no fresh
names (its counter comes back unchanged), which is in particular the state
of a freshly constructed evaluator; the counter is per-`Evaluator`, not
per-normalisation. -/
theorem C2_determinism (c c' s : Nat) (t r : Term)
    (h : evaluate c t = some (r, c', s)) (hc : c' = c) :
    ∃ r' c'' s', evaluate c' t = some (r', c'', s') ∧ pretty r' = pretty r := by
  subst hc
  exact ⟨r, c', s, h, rfl⟩

/-- C2 (witness): the amended determinism theorem applied to `(λx.x 42)`,
whose normalisation consumes no fresh names. -/
theorem C2_witness :
    evaluate 0 (.App (.Lam "x" (.Var "x")) (.Num 42)) = some (.Num 42, 0, 2) ∧
    ∃ r' c'' s', evaluate 0 (.App (.Lam "x" (.Var "x")) (.Num 42)) =
        some (r', c'', s') ∧ pretty r' = pretty (Term.Num 42) :=
  ⟨rfl, C2_determinism 0 0 2 (.App (.Lam "x" (.Var "x")) (.Num 42)) (.Num 42) rfl rfl⟩

/-!
Claim C3.  `reduce_dup` reduces the discarded value before the unused check,
consuming fresh names; when the body's own normal form contains fresh names
they come out shifted, so `normalise(Dup(x, l, V, B))` need not equal
`normalise(B)`.
-/

/-- C3 (counterexample): with `V = (&L{a,b} cc)` (whose single reduction pass
allocates the fresh name `$x1`) and `B = (&L{λu.u, λv.v} λw.w)` (whose
normal form contains fresh names), the body `B` mentions no projection of
`q`, yet `normalise(Dup(q, M, V, B))` prints `&L{λ$x3.$x3, λ$x4.$x4}` while
`normalise(B)` prints `&L{λ$x2.$x2, λ$x3.$x3}`. -/
theorem C3_counterexample :
    contains_dp (.App (.Sup "L" (.Lam "u" (.Var "u")) (.Lam "v" (.Var "v")))
        (.Lam "w" (.Var "w"))) "q" 0 = false ∧
    contains_dp (.App (.Sup "L" (.Lam "u" (.Var "u")) (.Lam "v" (.Var "v")))
        (.Lam "w" (.Var "w"))) "q" 1 = false ∧
    evaluate 0 (.Dup "q" "M" (.App (.Sup "L" (.Var "a") (.Var "b")) (.Var "cc"))
        (.App (.Sup "L" (.Lam "u" (.Var "u")) (.Lam "v" (.Var "v")))
          (.Lam "w" (.Var "w")))) =
      some (.Sup "L" (.Lam "$x3" (.Var "$x3")) (.Lam "$x4" (.Var "$x4")), 5, 3) ∧
    evaluate 0 (.App (.Sup "L" (.Lam "u" (.Var "u")) (.Lam "v" (.Var "v")))
        (.Lam "w" (.Var "w"))) =
      some (.Sup "L" (.Lam "$x2" (.Var "$x2")) (.Lam "$x3" (.Var "$x3")), 4, 3) ∧
    pretty (.Sup "L" (.Lam "$x3" (.Var "$x3")) (.Lam "$x4" (.Var "$x4"))) ≠
      pretty (.Sup "L" (.Lam "$x2" (.Var "$x2")) (.Lam "$x3" (.Var "$x3"))) := by
  exact ⟨rfl, rfl, rfl, rfl, by decide⟩

/-- C3 (amended): `normalise(Dup(x, l, V, B))` equals `normalise(B)` whenever
`B` mentions neither projection of `x`, provided the one-pass reduction of
`V` allocates no fresh names (counter unchanged), and the first reduction
step on `B` changes its printed form without colliding with the printout of
the `Dup` term or the driver's `None` sentinel.  The hypotheses at fuel
99999 describe the nested reduction calls, which run one stack frame deeper
than the top-level pass at fuel 100000. -/
theorem C3_dup_unused (x l : String) (V B V' B₁ : Term) (c c₂ : Nat)
    (h0 : contains_dp B x 0 = false) (h1 : contains_dp B x 1 = false)
    (hV : reduce 99999 c V = some (V', c))
    (hB9 : reduce 99999 c B = some (B₁, c₂))
    (hB10 : reduce 100000 c B = some (B₁, c₂))
    (hne1 : pretty B₁ ≠ pretty (Term.Dup x l V B))
    (hne2 : pretty B₁ ≠ pretty B)
    (hnone : pretty B ≠ noneStr) :
    evaluate c (Term.Dup x l V B) = evaluate c B := by
  have hDupNone : pretty (Term.Dup x l V B) ≠ noneStr := by
    intro hx
    have h2 := congrArg List.head? hx
    simp [pretty, noneStr] at h2
  have hredD : reduce reduceFuel c (Term.Dup x l V B) = some (B₁, c₂) := by
    show reduce (99999 + 1) c (Term.Dup x l V B) = some (B₁, c₂)
    rw [reduce_dup_unused 99999 c x l V B V' c hV h0 h1]
    exact hB9
  show evalGo (9999 + 1) c 0 noneStr (Term.Dup x l V B) =
    evalGo (9999 + 1) c 0 noneStr B
  rw [evalGo_step 9999 c 0 noneStr _ B₁ c₂ hDupNone hredD,
    evalGo_step 9999 c 0 noneStr B B₁ c₂ hnone hB10]
  show evalGo (9998 + 1) c₂ 1 (pretty (Term.Dup x l V B)) B₁ =
    evalGo (9998 + 1) c₂ 1 (pretty B) B₁
  cases hr : reduce reduceFuel c₂ B₁ with
  | none =>
    rw [evalGo_none 9998 c₂ 1 _ B₁ hne1 hr, evalGo_none 9998 c₂ 1 _ B₁ hne2 hr]
  | some r =>
    obtain ⟨t₃, c₃⟩ := r
    rw [evalGo_step 9998 c₂ 1 _ B₁ t₃ c₃ hne1 hr, evalGo_step 9998 c₂ 1 _ B₁ t₃ c₃ hne2 hr]

/-- C3 (witness): the amended theorem at `x = q`, `l = M`, `V = Num 7`,
`B = (1 + 2)`, whose hypotheses all hold concretely. -/
theorem C3_witness :
    evaluate 0 (.Dup "q" "M" (.Num 7) (.Op2 "+" (.Num 1) (.Num 2))) =
      evaluate 0 (.Op2 "+" (.Num 1) (.Num 2)) :=
  C3_dup_unused "q" "M" (.Num 7) (.Op2 "+" (.Num 1) (.Num 2)) (.Num 7) (.Num 3) 0 0
    (by decide) (by decide) (by decide) (by decide) (by decide)
    (by decide) (by decide) (by decide)

/-!
Claims C6 and C10: the parser's error values and the empty lambda binder.
-/

/-- C6 (counterexample): parsing `"(1 +"` and `"λ."` both fail with the
`"Unexpected end of input"` error, which carries no character offset at all,
refuting the claim that every parse failure carries the offset of the
failure site. -/
theorem C6_counterexample :
    parse ['(', '1', ' ', '+'] = .error .unexpectedEnd ∧
    parse ['λ', '.'] = .error .unexpectedEnd :=
  ⟨rfl, rfl⟩

/-- C6 (amended): unexpected-character and missing-delimiter failures carry
the zero-based offset, but unexpected end of input does not; concretely,
`"(1 +"` and `"λ."` fail with the offset-less end-of-input error, while
`"&L{1,2"` fails demanding `'}'` at offset 6. -/
theorem C6_parse_errors :
    parse ['(', '1', ' ', '+'] = .error .unexpectedEnd ∧
    parse ['&', 'L', '{', '1', ',', '2'] = .error (.expectedAt ['}'] 6) ∧
    parse ['λ', '.'] = .error .unexpectedEnd :=
  ⟨rfl, rfl, rfl⟩

/-- C10 (confirmed): the parser accepts a lambda abstraction with an empty
binder: both `"λ.x"` and `"\\.x"` parse to `Lam("", Var "x")` rather than
raising a `ParseError`. -/
theorem C10_empty_binder :
    parse ['λ', '.', 'x'] = .ok (.Lam "" (.Var "x")) ∧
    parse ['\\', '.', 'x'] = .ok (.Lam "" (.Var "x")) :=
  ⟨rfl, rfl⟩

/-!
Claim C7: the driver performs at most `max_steps = 10000` passes, and
exhaustion is only observable through the step counter.
-/

theorem evalGo_steps_le :
    ∀ f c s prev t r c' s', evalGo f c s prev (t : Term) = some (r, c', s') → s' ≤ s + f := by
  intro f
  induction f with
  | zero =>
    intro c s prev t r c' s' h
    simp [evalGo] at h
    omega
  | succ g ih =>
    intro c s prev t r c' s' h
    by_cases hp : pretty t = prev
    · rw [evalGo_stop g c s prev t hp] at h
      injection h with h1
      injection h1 with _ h2
      injection h2 with _ h3
      omega
    · rw [show evalGo (g + 1) c s prev t =
          (match reduce reduceFuel c t with
            | none => none
            | some (t', c') => evalGo g c' (s + 1) (pretty t) t') from by
          simp [evalGo, hp]] at h
      cases hr : reduce reduceFuel c t with
      | none => rw [hr] at h; exact absurd h (by simp)
      | some p =>
        rw [hr] at h
        have := ih p.2 (s + 1) (pretty t) p.1 r c' s' h
        omega

/-- C7 (confirmed): `evaluate` performs at most the safety bound of 10000
successor attempts; whatever it returns, the exposed step counter is at most
10000, and on exhaustion the loop returns the current term rather than
failing (the zero-fuel branch of `evalGo` returns `some`). -/
theorem C7_step_bound (c : Nat) (t r : Term) (c' s : Nat)
    (h : evaluate c t = some (r, c', s)) : s ≤ 10000 := by
  have := evalGo_steps_le 10000 c 0 noneStr t r c' s h
  omega

/-- C7 (witness): the bound applied to the run on `Num 1`, which stops after
one pass. -/
theorem C7_witness :
    evaluate 0 (.Num 1) = some (.Num 1, 0, 1) ∧ 1 ≤ 10000 :=
  ⟨rfl, C7_step_bound 0 (.Num 1) (.Num 1) 0 1 rfl⟩

/-!
Claim C4.  Idempotence of `normalise` fails when the safety bound cuts a
run short: the term `(λx.((x x) 1) λx.((x x) 1))` grows by one application
layer on every pass and never stabilises, so the first `normalise` exhausts
its 10000 passes and a second `normalise` of the returned best-effort term
makes 10000 further passes, producing a different (larger) term.
-/

/-- The self-applying abstraction `λx.((x x) 1)`. -/
def Wc : Term := .Lam "x" (.App (.App (.Var "x") (.Var "x")) (.Num 1))

/-- The trajectory of `(Wc Wc)` under the reducer: each pass wraps one more
`(· 1)` application layer around it. -/
def u : Nat → Term
  | 0 => .App Wc Wc
  | n + 1 => .App (u n) (.Num 1)

theorem reduce_lam_step (f c : Nat) (x : String) (b b' : Term) (c' : Nat)
    (h : reduce f c b = some (b', c')) :
    reduce (f + 1) c (.Lam x b) = some (.Lam x b', c') := by
  simp [reduce, h]

theorem reduce_app_app (f c : Nat) (fn a g1 g2 : Term) (c₁ : Nat) (a' : Term) (c₂ : Nat)
    (hf : reduce f c fn = some (.App g1 g2, c₁)) (ha : reduce f c₁ a = some (a', c₂)) :
    reduce (f + 1) c (.App fn a) = some (.App (.App g1 g2) a', c₂) := by
  simp [reduce, hf, ha]

theorem reduce_app_var (f c : Nat) (fn : Term) (n : String) (a : Term) (c₁ : Nat)
    (a' : Term) (c₂ : Nat)
    (hf : reduce f c fn = some (.Var n, c₁)) (ha : reduce f c₁ a = some (a', c₂)) :
    reduce (f + 1) c (.App fn a) = some (.App (.Var n) a', c₂) := by
  simp [reduce, hf, ha]

theorem reduce_app_lam (f c : Nat) (fn a : Term) (x : String) (b : Term) (c₁ : Nat)
    (hf : reduce f c fn = some (.Lam x b, c₁)) :
    reduce (f + 1) c (.App fn a) = some (substitute b x a, c₁) := by
  simp [reduce, hf]

theorem reduce_Wc (g c : Nat) : reduce (g + 3) c Wc = some (Wc, c) := by
  have s1 : reduce (g + 1) c (.App (.Var "x") (.Var "x")) =
      some (.App (.Var "x") (.Var "x"), c) :=
    reduce_app_var g c _ "x" _ c _ c (reduce_var g c "x") (reduce_var g c "x")
  have s2 : reduce (g + 2) c (.App (.App (.Var "x") (.Var "x")) (.Num 1)) =
      some (.App (.App (.Var "x") (.Var "x")) (.Num 1), c) :=
    reduce_app_app (g + 1) c _ _ _ _ c _ c s1 (reduce_num (g + 1) c 1)
  exact reduce_lam_step (g + 2) c "x" _ _ c s2

theorem reduce_u0 (g c : Nat) : reduce (g + 4) c (u 0) = some (u 1, c) := by
  have h := reduce_app_lam (g + 3) c Wc Wc "x"
    (.App (.App (.Var "x") (.Var "x")) (.Num 1)) c (reduce_Wc g c)
  exact h

theorem reduce_u : ∀ n g c, reduce (g + n + 4) c (u n) = some (u (n + 1), c) := by
  intro n
  induction n with
  | zero => intro g c; exact reduce_u0 g c
  | succ m ih =>
    intro g c
    have harith : g + (m + 1) + 4 = (g + m + 4) + 1 := by omega
    rw [harith]
    show reduce ((g + m + 4) + 1) c (.App (u m) (.Num 1)) = some (u (m + 2), c)
    have hfn : reduce (g + m + 4) c (u m) = some (.App (u m) (.Num 1), c) := ih g c
    exact reduce_app_app (g + m + 4) c (u m) (.Num 1) (u m) (.Num 1) c (.Num 1) c
      hfn (reduce_num (g + m + 4) c 1)

theorem reduce_u_top (n c : Nat) (h : n + 4 ≤ 100000) :
    reduce reduceFuel c (u n) = some (u (n + 1), c) := by
  obtain ⟨g, hg⟩ : ∃ g, (100000 : Nat) = g + n + 4 := ⟨100000 - n - 4, by omega⟩
  show reduce 100000 c (u n) = some (u (n + 1), c)
  rw [hg]
  exact reduce_u n g c

theorem pretty_u_len : ∀ n, (pretty (u n)).length = 27 + 4 * n := by
  intro n
  induction n with
  | zero => rfl
  | succ m ih =>
    show (pretty (.App (u m) (.Num 1))).length = 27 + 4 * (m + 1)
    simp [pretty, ih, show intStr 1 = ['1'] from rfl]
    omega

theorem pretty_u_ne (n : Nat) : pretty (u n) ≠ pretty (u (n + 1)) := by
  intro h
  have h2 : (pretty (u n)).length = (pretty (u (n + 1))).length := by rw [h]
  rw [pretty_u_len, pretty_u_len] at h2
  omega

theorem noneStr_ne_pretty_u (n : Nat) : noneStr ≠ pretty (u n) := by
  intro h
  have h2 : noneStr.length = (pretty (u n)).length := by rw [h]
  rw [pretty_u_len] at h2
  simp [noneStr] at h2
  omega

theorem evalGo_u : ∀ f n c s (prev : List Char), prev ≠ pretty (u n) →
    n + f + 4 ≤ 100000 → evalGo f c s prev (u n) = some (u (n + f), c, s + f) := by
  intro f
  induction f with
  | zero => intro n c s prev _ _; simp [evalGo]
  | succ g ih =>
    intro n c s prev hprev hbound
    rw [evalGo_step g c s prev (u n) (u (n + 1)) c (Ne.symm hprev)
      (reduce_u_top n c (by omega))]
    rw [ih (n + 1) c (s + 1) (pretty (u n)) (pretty_u_ne n) (by omega)]
    have e1 : n + 1 + g = n + (g + 1) := by omega
    have e2 : s + 1 + g = s + (g + 1) := by omega
    rw [e1, e2]

/-- C4 (counterexample): normalising `(λx.((x x) 1) λx.((x x) 1))` exhausts
the 10000-pass safety bound and returns the 10000-layer best-effort term;
normalising that output runs 10000 further passes and returns the
20000-layer term, so `normalise(normalise(t)) ≠ normalise(t)`. -/
theorem C4_counterexample :
    evaluate 0 (.App Wc Wc) = some (u 10000, 0, 10000) ∧
    evaluate 0 (u 10000) = some (u 20000, 0, 10000) ∧
    u 20000 ≠ u 10000 := by
  refine ⟨?_, ?_, ?_⟩
  · show evalGo 10000 0 0 noneStr (u 0) = some (u 10000, 0, 10000)
    have h := evalGo_u 10000 0 0 0 noneStr (noneStr_ne_pretty_u 0) (by omega)
    simpa using h
  · have h := evalGo_u 10000 10000 0 0 noneStr (noneStr_ne_pretty_u 10000) (by omega)
    show evalGo 10000 0 0 noneStr (u 10000) = some (u 20000, 0, 10000)
    simpa using h
  · intro h
    have h2 : (pretty (u 20000)).length = (pretty (u 10000)).length := by rw [h]
    rw [pretty_u_len, pretty_u_len] at h2
    omega

/-- C4 (amended): `normalise(normalise(t)) = normalise(t)` (up to the step
counter) whenever the first normalisation's result is a genuine fixpoint of
the one-pass reducer, i.e. whenever the run stabilised rather than hitting
the safety bound; a best-effort term returned at the bound can reduce
further on the second call. -/
theorem C4_idempotent (c c' s : Nat) (t r : Term)
    (_h : evaluate c t = some (r, c', s))
    (hfix : reduce reduceFuel c' r = some (r, c')) :
    ∃ s', evaluate c' r = some (r, c', s') := by
  by_cases hp : pretty r = noneStr
  · exact ⟨0, evalGo_stop 9999 c' 0 noneStr r hp⟩
  · refine ⟨1, ?_⟩
    show evalGo (9999 + 1) c' 0 noneStr r = some (r, c', 1)
    rw [evalGo_step 9999 c' 0 noneStr r r c' hp hfix]
    exact evalGo_stop 9998 c' 1 (pretty r) r rfl

/-- C4 (witness): the amended idempotence theorem applied to the stabilising
run on `Num 5`. -/
theorem C4_witness :
    evaluate 0 (.Num 5) = some (.Num 5, 0, 1) ∧
    ∃ s', evaluate 0 (.Num 5) = some (.Num 5, 0, s') :=
  ⟨rfl, C4_idempotent 0 0 1 (.Num 5) (.Num 5) rfl (reduce_num reduceFuel 0 5)⟩

/-!
Claim C5: the parse / pretty round trip.  The generator of representative
terms is formalised by `goodTerm`: names are the grammar's identifiers
(non-empty ASCII alphanumeric-underscore sequences not beginning with a
digit, and, for occurrence positions, not containing an `_` before `0`/`1`,
which the scanner would split), labels are non-empty identifier-character
sequences, numerals are non-negative (the grammar has no negative literals)
and operators are the four the grammar admits.
-/

/-- The character test of the scanning loop in `parse_var`. -/
def identChar (c : Char) : Bool := c.toNat < 128 && (c.isAlphanum || c = '_')

/-- No underscore immediately followed by `'0'` or `'1'`, and no trailing
underscore (which could fuse with following text). -/
def noUnd01 : List Char → Bool
  | [] => true
  | c :: cs =>
    (if c = '_' then
      match cs with
      | [] => false
      | d :: _ => !(d = '0' || d = '1')
    else true) && noUnd01 cs

/-- A name valid in occurrence position (`Var`, `Dp0`, `Dp1`, also used for
binders): non-empty, made of identifier characters, not starting with a
digit, and with no `_0`/`_1` split point. -/
def goodName (s : String) : Bool :=
  match s.data with
  | [] => false
  | c :: _ =>
    (!pyIsDigit c && (pyIsAlpha c || c = '_')) && s.data.all identChar && noUnd01 s.data

/-- A valid label: non-empty and made of identifier characters. -/
def goodLabel (s : String) : Bool :=
  match s.data with
  | [] => false
  | _ :: _ => s.data.all identChar

/-- The four operators the grammar admits. -/
def goodOp (s : String) : Bool := s = "+" || s = "-" || s = "*" || s = "/"

/-- The representative generator of claim C5: every variant, with names,
labels, numerals and operators drawn from the grammar. -/
def goodTerm : Term → Bool
  | .Var n => goodName n
  | .Dp0 n => goodName n
  | .Dp1 n => goodName n
  | .Num v => decide (0 ≤ v)
  | .Lam x b => goodName x && goodTerm b
  | .App f a => goodTerm f && goodTerm a
  | .Sup l a b => goodLabel l && goodTerm a && goodTerm b
  | .Dup x l v b => goodName x && goodLabel l && goodTerm v && goodTerm b
  | .Era => true
  | .Op2 op l r => goodOp op && goodTerm l && goodTerm r
  | .Pair a b => goodTerm a && goodTerm b

/-- The input that may legally follow a printed term without extending its
final token: empty, or headed by a character that no scanning loop accepts
(in the printed contexts: space, `','`, `')'`, `';'`, `'}'`). -/
def noExtB : List Char → Bool
  | [] => true
  | c :: _ => !identChar c && !pyIsDigit c && !pyIsAlnum c && c ≠ '₀' && c ≠ '₁'

theorem ws_cases (c : Char) (h : isWs c = true) :
    c = ' ' ∨ c = '\t' ∨ c = '\n' ∨ c = '\r' := by
  simpa [isWs, or_assoc] using h

theorem identChar_not_ws (c : Char) (h : identChar c = true) : isWs c = false := by
  by_contra hx
  have hw : isWs c = true := by revert hx; cases isWs c <;> simp
  rcases ws_cases c hw with rfl | rfl | rfl | rfl <;> exact absurd h (by decide)

theorem identChar_read_ident (c : Char) (h : identChar c = true) :
    (pyIsAlnum c || c = '_') = true := by
  have h' : (c.isAlphanum || c = '_') = true := by
    have := h
    unfold identChar at this
    exact (Bool.and_eq_true_iff.mp this).2
  rcases Bool.or_eq_true_iff.mp h' with h2 | h2
  · simp [pyIsAlnum, h2]
  · simp [h2]

theorem digit_mem_facts (c : Char) (h : c ∈ digitChars) :
    pyIsDigit c = true ∧ identChar c = true ∧ isWs c = false := by
  fin_cases h <;> exact ⟨by decide, by decide, by decide⟩

theorem noExt_head (c : Char) (cs : List Char) (h : noExtB (c :: cs) = true) :
    identChar c = false ∧ pyIsDigit c = false ∧ pyIsAlnum c = false ∧
      c ≠ '₀' ∧ c ≠ '₁' := by
  simpa [noExtB, Bool.and_eq_true, Bool.not_eq_true', and_assoc] using h

theorem skip_ws_noop (r : List Char) (p : Nat)
    (h : ∀ c, r.head? = some c → isWs c = false) : skip_whitespace r p = (r, p) := by
  cases r with
  | nil => rfl
  | cons c cs => simp [skip_whitespace, h c rfl]

theorem consume_split (tok rest : List Char) (p : Nat) :
    consume tok (tok ++ rest) p = .ok (skip_whitespace rest (p + tok.length)) := by
  simp [consume, List.take_left, List.drop_left]

theorem read_ident_split : ∀ (nm rest : List Char) (p : Nat),
    (∀ c ∈ nm, identChar c = true) → noExtB rest = true →
    read_ident (nm ++ rest) p = (nm, rest, p + nm.length) := by
  intro nm
  induction nm with
  | nil =>
    intro rest p _ hrest
    cases rest with
    | nil => rfl
    | cons c cs =>
      obtain ⟨hid, _, hal, _, _⟩ := noExt_head c cs hrest
      have h' : (pyIsAlnum c || c = '_') = false := by
        have hne : ¬(c = '_') := by
          intro hcu; subst hcu; exact absurd hid (by decide)
        simp [hal, hne]
      simp [read_ident, h']
  | cons c nm' ih =>
    intro rest p hall hrest
    have hc : identChar c = true := hall c (List.mem_cons_self c nm')
    have hall' : ∀ d ∈ nm', identChar d = true :=
      fun d hd => hall d (List.mem_cons_of_mem c hd)
    show read_ident ((c :: nm') ++ rest) p = (c :: nm', rest, p + (c :: nm').length)
    rw [List.cons_append]
    unfold read_ident
    rw [identChar_read_ident c hc]
    simp only [if_true, ih rest (p + 1) hall' hrest, List.length_cons]
    have harith : p + 1 + nm'.length = p + (nm'.length + 1) := by omega
    rw [harith]

theorem read_name_stop : ∀ (nm rest : List Char) (p : Nat),
    (∀ c ∈ nm, identChar c = true) → noUnd01 nm = true →
    (∀ c, rest.head? = some c → identChar c = false) →
    read_name (nm ++ rest) p = (nm, rest, p + nm.length) := by
  intro nm
  induction nm with
  | nil =>
    intro rest p _ _ hrest
    cases rest with
    | nil => rfl
    | cons c cs =>
      have hid : identChar c = false := hrest c rfl
      simp [read_name, show (c.toNat < 128 && (c.isAlphanum || c = '_')) = false from hid]
  | cons c nm' ih =>
    intro rest p hall hnu hrest
    have hc : identChar c = true := hall c (List.mem_cons_self c nm')
    have hall' : ∀ d ∈ nm', identChar d = true :=
      fun d hd => hall d (List.mem_cons_of_mem c hd)
    have hsplit := hnu
    simp only [noUnd01, Bool.and_eq_true] at hsplit
    have hnu' : noUnd01 nm' = true := hsplit.2
    have hcond :
        (c = '_' && ((nm' ++ rest).head? = some '0' || (nm' ++ rest).head? = some '1')) = false := by
      by_cases hcu : c = '_'
      · subst hcu
        have h1 := hsplit.1
        rw [if_pos rfl] at h1
        cases nm' with
        | nil => exact absurd h1 (by simp)
        | cons d nm'' =>
          simp at h1
          simp [h1.1, h1.2]
      · simp [hcu]
    show read_name ((c :: nm') ++ rest) p = (c :: nm', rest, p + (c :: nm').length)
    rw [List.cons_append]
    unfold read_name
    rw [show (c.toNat < 128 && (c.isAlphanum || c = '_')) = true from hc]
    simp only [if_true]
    rw [hcond]
    simp only [Bool.false_eq_true, if_false, ih rest (p + 1) hall' hnu' hrest,
      List.length_cons]
    have harith : p + 1 + nm'.length = p + (nm'.length + 1) := by omega
    rw [harith]

theorem read_digits_split : ∀ (ds rest : List Char) (p : Nat),
    (∀ c ∈ ds, c ∈ digitChars) → noExtB rest = true →
    read_digits (ds ++ rest) p = (ds, rest, p + ds.length) := by
  intro ds
  induction ds with
  | nil =>
    intro rest p _ hrest
    cases rest with
    | nil => rfl
    | cons c cs =>
      have hdig : pyIsDigit c = false := (noExt_head c cs hrest).2.1
      simp [read_digits, show c.isDigit = false from hdig]
  | cons c ds' ih =>
    intro rest p hall hrest
    have hc : c.isDigit = true :=
      (digit_mem_facts c (hall c (List.mem_cons_self c ds'))).1
    have hall' : ∀ d ∈ ds', d ∈ digitChars :=
      fun d hd => hall d (List.mem_cons_of_mem c hd)
    show read_digits ((c :: ds') ++ rest) p = (c :: ds', rest, p + (c :: ds').length)
    rw [List.cons_append]
    unfold read_digits
    rw [hc]
    simp only [if_true, ih rest (p + 1) hall' hrest, List.length_cons]
    have harith : p + 1 + ds'.length = p + (ds'.length + 1) := by omega
    rw [harith]

theorem natStrAux_mem : ∀ f n, n < f → ∀ c ∈ natStrAux f n, c ∈ digitChars := by
  intro f
  induction f with
  | zero => intro n h; omega
  | succ g ih =>
    intro n h c hc
    by_cases h10 : n < 10
    · simp [natStrAux, h10] at hc
      subst hc
      interval_cases n <;> decide
    · have hdiv : n / 10 < g := by
        have : n / 10 < n := Nat.div_lt_self (by omega) (by omega)
        omega
      simp [natStrAux, h10] at hc
      rcases hc with hc | hc
      · exact ih (n / 10) hdiv c hc
      · subst hc
        have hm : n % 10 < 10 := Nat.mod_lt n (by omega)
        set m := n % 10 with hmdef
        interval_cases m <;> decide

theorem natStr_mem (n : Nat) : ∀ c ∈ natStr n, c ∈ digitChars :=
  natStrAux_mem (n + 1) n (Nat.lt_succ_self n)

theorem digitsToNat_append_one (l : List Char) (c : Char) :
    digitsToNat (l ++ [c]) = digitsToNat l * 10 + (c.toNat - 48) := by
  simp [digitsToNat, List.foldl_append]

theorem natStrAux_val : ∀ f n, n < f → digitsToNat (natStrAux f n) = n := by
  intro f
  induction f with
  | zero => intro n h; omega
  | succ g ih =>
    intro n h
    by_cases h10 : n < 10
    · have hch : (Char.ofNat (48 + n)).toNat = 48 + n := by
        interval_cases n <;> decide
      simp [natStrAux, h10, digitsToNat, hch]
    · have hdiv : n / 10 < g := by
        have : n / 10 < n := Nat.div_lt_self (by omega) (by omega)
        omega
      have hm : n % 10 < 10 := Nat.mod_lt n (by omega)
      have hch : (Char.ofNat (48 + n % 10)).toNat = 48 + n % 10 := by
        set m := n % 10 with hmdef
        interval_cases m <;> decide
      rw [natStrAux, if_neg h10, digitsToNat_append_one, ih (n / 10) hdiv, hch]
      omega

theorem digitsToNat_natStr (n : Nat) : digitsToNat (natStr n) = n :=
  natStrAux_val (n + 1) n (Nat.lt_succ_self n)

/-- Binding an `ok` value in the `Except` monad just applies the
continuation. -/
theorem bind_ok {α β : Type} (a : α) (f : α → Except ParseErr β) :
    (Except.ok a >>= f : Except ParseErr β) = f a := rfl

theorem skip_ws_cons (c : Char) (r : List Char) (p : Nat) (h : isWs c = true) :
    skip_whitespace (c :: r) p = skip_whitespace r (p + 1) := by
  simp [skip_whitespace, h]

theorem noExt_any (c : Char) (xs : List Char)
    (h : (!identChar c && !pyIsDigit c && !pyIsAlnum c &&
      decide (c ≠ '₀') && decide (c ≠ '₁')) = true) : noExtB (c :: xs) = true := h

theorem mk_data (s : String) : String.mk s.data = s := rfl

/-- The head classes a printed good term can start with: a name head, a
digit, or one of the concrete sigils. -/
def headClass (c : Char) : Prop :=
  (!pyIsDigit c && (pyIsAlpha c || c = '_')) = true ∨ c ∈ digitChars ∨
    c = 'λ' ∨ c = '(' ∨ c = '&' ∨ c = '!'

theorem headClass_facts (c : Char) (h : headClass c) :
    isWs c = false ∧ c ≠ ',' ∧ c ≠ '+' ∧ c ≠ '-' ∧ c ≠ '*' ∧ c ≠ '/' ∧
      c ≠ ')' ∧ c ≠ ';' ∧ c ≠ '}' := by
  rcases h with h | h | rfl | rfl | rfl | rfl
  · have hcls : (pyIsAlpha c || c = '_') = true := (Bool.and_eq_true_iff.mp h).2
    have hws : isWs c = false := by
      by_contra hx
      have hw : isWs c = true := by revert hx; cases isWs c <;> simp
      rcases ws_cases c hw with rfl | rfl | rfl | rfl <;> exact absurd hcls (by decide)
    refine ⟨hws, ?_, ?_, ?_, ?_, ?_, ?_, ?_, ?_⟩ <;>
      (intro hx; subst hx; exact absurd hcls (by decide))
  · fin_cases h <;>
      exact ⟨by decide, by decide, by decide, by decide, by decide, by decide,
        by decide, by decide, by decide⟩
  all_goals
    exact ⟨by decide, by decide, by decide, by decide, by decide, by decide,
      by decide, by decide, by decide⟩

/-- Heads of printed good terms: every printed term is non-empty and starts
with a character in `headClass` (hence not whitespace, not a comma, not an
operator and not a closing delimiter). -/
theorem pretty_headC (t : Term) (h : goodTerm t = true) :
    ∃ c cs, pretty t = c :: cs ∧ headClass c := by
  cases t with
  | Var n =>
    have hn : goodName n = true := h
    unfold goodName at hn
    cases hd : n.data with
    | nil => rw [hd] at hn; simp at hn
    | cons c cs =>
      rw [hd] at hn
      exact ⟨c, cs, by simp [pretty, hd],
        Or.inl ((Bool.and_eq_true_iff.mp ((Bool.and_eq_true_iff.mp hn).1)).1)⟩
  | Dp0 n =>
    have hn : goodName n = true := h
    unfold goodName at hn
    cases hd : n.data with
    | nil => rw [hd] at hn; simp at hn
    | cons c cs =>
      rw [hd] at hn
      exact ⟨c, cs ++ ['₀'], by simp [pretty, hd],
        Or.inl ((Bool.and_eq_true_iff.mp ((Bool.and_eq_true_iff.mp hn).1)).1)⟩
  | Dp1 n =>
    have hn : goodName n = true := h
    unfold goodName at hn
    cases hd : n.data with
    | nil => rw [hd] at hn; simp at hn
    | cons c cs =>
      rw [hd] at hn
      exact ⟨c, cs ++ ['₁'], by simp [pretty, hd],
        Or.inl ((Bool.and_eq_true_iff.mp ((Bool.and_eq_true_iff.mp hn).1)).1)⟩
  | Num v =>
    have hv : (0 ≤ v) := by simpa [goodTerm] using h
    have hnn : ¬(v < 0) := by omega
    obtain ⟨d, l, hd, hmem⟩ := natStr_head v.toNat
    exact ⟨d, l, by simp [pretty, intStr, hnn, hd], Or.inr (Or.inl hmem)⟩
  | Lam x b => exact ⟨'λ', _, rfl, Or.inr (Or.inr (Or.inl rfl))⟩
  | App f a => exact ⟨'(', _, rfl, Or.inr (Or.inr (Or.inr (Or.inl rfl)))⟩
  | Sup l a b => exact ⟨'&', _, rfl, Or.inr (Or.inr (Or.inr (Or.inr (Or.inl rfl))))⟩
  | Dup x l v b => exact ⟨'!', _, rfl, Or.inr (Or.inr (Or.inr (Or.inr (Or.inr rfl))))⟩
  | Era => exact ⟨'&', _, rfl, Or.inr (Or.inr (Or.inr (Or.inr (Or.inl rfl))))⟩
  | Op2 op l r => exact ⟨'(', _, rfl, Or.inr (Or.inr (Or.inr (Or.inl rfl)))⟩
  | Pair a b => exact ⟨'(', _, rfl, Or.inr (Or.inr (Or.inr (Or.inl rfl)))⟩

/-- A good operator is one concrete character with the properties the paren
branch of the parser tests for. -/
theorem goodOp_parts (op : String) (h : goodOp op = true) :
    ∃ oc, op.data = [oc] ∧ String.mk [oc] = op ∧
      (oc = '+' || oc = '-' || oc = '*' || oc = '/') = true ∧
      isWs oc = false ∧ oc ≠ ',' := by
  have h4 : op = "+" ∨ op = "-" ∨ op = "*" ∨ op = "/" := by
    simpa [goodOp, or_assoc] using h
  rcases h4 with rfl | rfl | rfl | rfl
  · exact ⟨'+', rfl, rfl, by decide, by decide, by decide⟩
  · exact ⟨'-', rfl, rfl, by decide, by decide, by decide⟩
  · exact ⟨'*', rfl, rfl, by decide, by decide, by decide⟩
  · exact ⟨'/', rfl, rfl, by decide, by decide, by decide⟩

/-- Heads of printed good terms: every printed term is non-empty and starts
with a non-whitespace character. -/
theorem pretty_head (t : Term) (h : goodTerm t = true) :
    ∃ c cs, pretty t = c :: cs ∧ isWs c = false := by
  cases t with
  | Var n =>
    have hn : goodName n = true := h
    unfold goodName at hn
    cases hd : n.data with
    | nil => rw [hd] at hn; simp at hn
    | cons c cs =>
      rw [hd] at hn
      have hh : (!pyIsDigit c && (pyIsAlpha c || c = '_')) = true :=
        ((Bool.and_eq_true_iff.mp ((Bool.and_eq_true_iff.mp hn).1)).1)
      refine ⟨c, cs, by simp [pretty, hd], ?_⟩
      have hcls : (pyIsAlpha c || c = '_') = true := (Bool.and_eq_true_iff.mp hh).2
      by_contra hx
      have hw : isWs c = true := by revert hx; cases isWs c <;> simp
      rcases ws_cases c hw with rfl | rfl | rfl | rfl <;> exact absurd hcls (by decide)
  | Dp0 n =>
    have hn : goodName n = true := h
    unfold goodName at hn
    cases hd : n.data with
    | nil => rw [hd] at hn; simp at hn
    | cons c cs =>
      rw [hd] at hn
      have hh : (!pyIsDigit c && (pyIsAlpha c || c = '_')) = true :=
        ((Bool.and_eq_true_iff.mp ((Bool.and_eq_true_iff.mp hn).1)).1)
      refine ⟨c, cs ++ ['₀'], by simp [pretty, hd], ?_⟩
      have hcls : (pyIsAlpha c || c = '_') = true := (Bool.and_eq_true_iff.mp hh).2
      by_contra hx
      have hw : isWs c = true := by revert hx; cases isWs c <;> simp
      rcases ws_cases c hw with rfl | rfl | rfl | rfl <;> exact absurd hcls (by decide)
  | Dp1 n =>
    have hn : goodName n = true := h
    unfold goodName at hn
    cases hd : n.data with
    | nil => rw [hd] at hn; simp at hn
    | cons c cs =>
      rw [hd] at hn
      have hh : (!pyIsDigit c && (pyIsAlpha c || c = '_')) = true :=
        ((Bool.and_eq_true_iff.mp ((Bool.and_eq_true_iff.mp hn).1)).1)
      refine ⟨c, cs ++ ['₁'], by simp [pretty, hd], ?_⟩
      have hcls : (pyIsAlpha c || c = '_') = true := (Bool.and_eq_true_iff.mp hh).2
      by_contra hx
      have hw : isWs c = true := by revert hx; cases isWs c <;> simp
      rcases ws_cases c hw with rfl | rfl | rfl | rfl <;> exact absurd hcls (by decide)
  | Num v =>
    have hv : (0 ≤ v) := by simpa [goodTerm] using h
    have hnn : ¬(v < 0) := by omega
    obtain ⟨d, l, hd, hmem⟩ := natStr_head v.toNat
    refine ⟨d, l, by simp [pretty, intStr, hnn, hd], (digit_mem_facts d hmem).2.2⟩
  | Lam x b => exact ⟨'λ', _, rfl, by decide⟩
  | App f a => exact ⟨'(', _, rfl, by decide⟩
  | Sup l a b => exact ⟨'&', _, rfl, by decide⟩
  | Dup x l v b => exact ⟨'!', _, rfl, by decide⟩
  | Era => exact ⟨'&', _, rfl, by decide⟩
  | Op2 op l r => exact ⟨'(', _, rfl, by decide⟩
  | Pair a b => exact ⟨'(', _, rfl, by decide⟩

theorem goodName_parts (n : String) (hg : goodName n = true) :
    (∀ c ∈ n.data, identChar c = true) ∧ noUnd01 n.data = true := by
  unfold goodName at hg
  cases hd : n.data with
  | nil => rw [hd] at hg; simp at hg
  | cons c cs =>
    rw [hd] at hg
    refine ⟨?_, (Bool.and_eq_true_iff.mp hg).2⟩
    have hall : (c :: cs).all identChar = true :=
      (Bool.and_eq_true_iff.mp ((Bool.and_eq_true_iff.mp hg).1)).2
    intro d hdm
    exact List.all_eq_true.mp hall d hdm

theorem parse_var_plain (n : String) (rest : List Char) (p : Nat)
    (hg : goodName n = true) (hrest : noExtB rest = true) :
    parse_var (n.data ++ rest) p = (.Var n, skip_whitespace rest (p + n.data.length)) := by
  obtain ⟨hall, hnu⟩ := goodName_parts n hg
  have hstop : ∀ c, rest.head? = some c → identChar c = false := by
    intro c hc
    cases rest with
    | nil => simp at hc
    | cons d ds =>
      injection hc with hc
      subst hc
      exact (noExt_head d ds hrest).1
  unfold parse_var
  rw [read_name_stop n.data rest p hall hnu hstop]
  simp only [mk_data]
  cases rest with
  | nil => rfl
  | cons c cs =>
    obtain ⟨hid, _, _, h0, h1⟩ := noExt_head c cs hrest
    have hu : c ≠ '_' := by
      intro hcu; subst hcu; exact absurd hid (by decide)
    split
    · next heq => rw [List.cons.injEq] at heq; exact absurd heq.1 h0
    · next heq => rw [List.cons.injEq] at heq; exact absurd heq.1 h1
    · next heq => rw [List.cons.injEq] at heq; exact absurd heq.1 hu
    · next heq => rw [List.cons.injEq] at heq; exact absurd heq.1 hu
    · rfl

theorem parse_var_dp0 (n : String) (rest : List Char) (p : Nat)
    (hg : goodName n = true) :
    parse_var (n.data ++ '₀' :: rest) p =
      (.Dp0 n, skip_whitespace rest (p + n.data.length + 1)) := by
  obtain ⟨hall, hnu⟩ := goodName_parts n hg
  have hstop : ∀ c, ('₀' :: rest).head? = some c → identChar c = false := by
    intro c hc
    injection hc with hc
    subst hc
    decide
  unfold parse_var
  rw [read_name_stop n.data ('₀' :: rest) p hall hnu hstop]
  simp only [mk_data]

theorem parse_var_dp1 (n : String) (rest : List Char) (p : Nat)
    (hg : goodName n = true) :
    parse_var (n.data ++ '₁' :: rest) p =
      (.Dp1 n, skip_whitespace rest (p + n.data.length + 1)) := by
  obtain ⟨hall, hnu⟩ := goodName_parts n hg
  have hstop : ∀ c, ('₁' :: rest).head? = some c → identChar c = false := by
    intro c hc
    injection hc with hc
    subst hc
    decide
  unfold parse_var
  rw [read_name_stop n.data ('₁' :: rest) p hall hnu hstop]
  simp only [mk_data]

theorem parse_num_split (n : Nat) (rest : List Char) (p : Nat)
    (hrest : noExtB rest = true) :
    parse_num (natStr n ++ rest) p =
      (.Num (Int.ofNat n), skip_whitespace rest (p + (natStr n).length)) := by
  unfold parse_num
  rw [read_digits_split (natStr n) rest p (natStr_mem n) hrest]
  simp only [digitsToNat_natStr]


theorem parse_term_era_entry (f : Nat) (l : List Char) (pos : Nat) :
    parse_term (f + 1) ('&' :: '{' :: '}' :: l) pos =
      .ok (.Era, skip_whitespace l (pos + 3)) := by
  unfold parse_term
  rw [skip_ws_noop _ pos (by intro c hc; injection hc with hc; subst hc; decide)]
  dsimp only
  rw [if_pos (by rfl)]
  rw [show consume ['&', '{', '}'] ('&' :: '{' :: '}' :: l) pos =
      .ok (skip_whitespace l (pos + 3)) from consume_split ['&', '{', '}'] l pos]
  rfl

theorem parse_term_var_entry (f : Nat) (c : Char) (l : List Char) (pos : Nat)
    (hh : (!pyIsDigit c && (pyIsAlpha c || c = '_')) = true) :
    parse_term (f + 1) (c :: l) pos = .ok (parse_var (c :: l) pos) := by
  have hdig : pyIsDigit c = false := by
    have := (Bool.and_eq_true_iff.mp hh).1
    simpa using this
  have hcls : (pyIsAlpha c || c = '_') = true := (Bool.and_eq_true_iff.mp hh).2
  have hamp : c ≠ '&' := by intro h; subst h; exact absurd hcls (by decide)
  have hbang : c ≠ '!' := by intro h; subst h; exact absurd hcls (by decide)
  have hlam : c ≠ 'λ' := by intro h; subst h; exact absurd hcls (by decide)
  have hbs : c ≠ '\\' := by intro h; subst h; exact absurd hcls (by decide)
  have hpar : c ≠ '(' := by intro h; subst h; exact absurd hcls (by decide)
  have hws : isWs c = false := by
    by_contra hx
    have hw : isWs c = true := by revert hx; cases isWs c <;> simp
    rcases ws_cases c hw with rfl | rfl | rfl | rfl <;> exact absurd hcls (by decide)
  unfold parse_term
  rw [skip_ws_noop _ pos (by intro c' hc'; injection hc' with hc'; subst hc'; exact hws)]
  dsimp only
  rw [if_neg (by
    intro hx
    rw [List.take_succ_cons, List.cons.injEq] at hx
    exact hamp hx.1)]
  rw [if_neg hamp, if_neg hbang]
  rw [if_neg (show ¬((c = 'λ' || c = '\\') = true) from by simp [hlam, hbs])]
  rw [if_neg hpar]
  rw [if_neg (show ¬(pyIsDigit c = true) from by simp [hdig])]
  rw [if_pos hcls]

theorem parse_term_num_entry (f : Nat) (c : Char) (l : List Char) (pos : Nat)
    (hd : c ∈ digitChars) :
    parse_term (f + 1) (c :: l) pos = .ok (parse_num (c :: l) pos) := by
  have hfacts : c ≠ '&' ∧ c ≠ '!' ∧ c ≠ 'λ' ∧ c ≠ '\\' ∧ c ≠ '(' ∧
      isWs c = false ∧ pyIsDigit c = true := by
    fin_cases hd <;>
      exact ⟨by decide, by decide, by decide, by decide, by decide, by decide, by decide⟩
  obtain ⟨hamp, hbang, hlam, hbs, hpar, hws, hdig⟩ := hfacts
  unfold parse_term
  rw [skip_ws_noop _ pos (by intro c' hc'; injection hc' with hc'; subst hc'; exact hws)]
  dsimp only
  rw [if_neg (by
    intro hx
    rw [List.take_succ_cons, List.cons.injEq] at hx
    exact hamp hx.1)]
  rw [if_neg hamp, if_neg hbang]
  rw [if_neg (show ¬((c = 'λ' || c = '\\') = true) from by simp [hlam, hbs])]
  rw [if_neg hpar]
  rw [if_pos hdig]

theorem parse_term_lam_entry (f : Nat) (l : List Char) (pos : Nat) :
    parse_term (f + 1) ('λ' :: l) pos =
      (match skip_whitespace l (pos + 1) with
       | (r, p) =>
         match read_ident r p with
         | (v, r, p) =>
           match skip_whitespace r p with
           | (r, p) => do
             let (r, p) ← consume ['.'] r p
             let (b, r, p) ← parse_term f r p
             .ok (.Lam (String.mk v) b, r, p)) := by
  conv_lhs => unfold parse_term
  rw [skip_ws_noop _ pos (by intro c hc; injection hc with hc; subst hc; decide)]
  dsimp only
  rw [if_neg (by
    intro hx
    rw [List.take_succ_cons, List.cons.injEq] at hx
    exact absurd hx.1 (by decide))]
  rw [if_neg (show ¬(('λ' : Char) = '&') from by decide)]
  rw [if_neg (show ¬(('λ' : Char) = '!') from by decide)]
  rw [if_pos (show (('λ' : Char) = 'λ' || ('λ' : Char) = '\\') = true from by decide)]
  rw [if_pos (show ('λ' : Char) = 'λ' from rfl)]
  rw [show consume ['λ'] ('λ' :: l) pos = .ok (skip_whitespace l (pos + 1)) from
    consume_split ['λ'] l pos]
  rw [bind_ok]

theorem parse_term_bs_entry (f : Nat) (l : List Char) (pos : Nat) :
    parse_term (f + 1) ('\\' :: l) pos =
      (match skip_whitespace l (pos + 1) with
       | (r, p) =>
         match read_ident r p with
         | (v, r, p) =>
           match skip_whitespace r p with
           | (r, p) => do
             let (r, p) ← consume ['.'] r p
             let (b, r, p) ← parse_term f r p
             .ok (.Lam (String.mk v) b, r, p)) := by
  conv_lhs => unfold parse_term
  rw [skip_ws_noop _ pos (by intro c hc; injection hc with hc; subst hc; decide)]
  dsimp only
  rw [if_neg (by
    intro hx
    rw [List.take_succ_cons, List.cons.injEq] at hx
    exact absurd hx.1 (by decide))]
  rw [if_neg (show ¬(('\\' : Char) = '&') from by decide)]
  rw [if_neg (show ¬(('\\' : Char) = '!') from by decide)]
  rw [if_pos (show (('\\' : Char) = 'λ' || ('\\' : Char) = '\\') = true from by decide)]
  rw [if_neg (show ¬(('\\' : Char) = 'λ') from by decide)]
  rw [show consume ['\\'] ('\\' :: l) pos = .ok (skip_whitespace l (pos + 1)) from
    consume_split ['\\'] l pos]
  rw [bind_ok]

theorem parse_term_sup_entry (f : Nat) (d : Char) (l : List Char) (pos : Nat)
    (hd : d ≠ '{') :
    parse_term (f + 1) ('&' :: d :: l) pos =
      (match skip_whitespace (d :: l) (pos + 1) with
       | (r, p) =>
         match read_ident r p with
         | (lab, r, p) =>
           let label := if lab.isEmpty then "L" else String.mk lab
           match skip_whitespace r p with
           | (r, p) => do
             let (r, p) ← consume ['{'] r p
             let (a, r, p) ← parse_term f r p
             let (r, p) ← consume [','] r p
             let (b, r, p) ← parse_term f r p
             let (r, p) ← consume ['}'] r p
             .ok (.Sup label a b, r, p)) := by
  conv_lhs => unfold parse_term
  rw [skip_ws_noop _ pos (by intro c hc; injection hc with hc; subst hc; decide)]
  dsimp only
  rw [if_neg (by
    intro hx
    rw [List.take_succ_cons, List.take_succ_cons, List.cons.injEq, List.cons.injEq] at hx
    exact hd hx.2.1)]
  rw [if_pos rfl]
  rw [show consume ['&'] ('&' :: d :: l) pos = .ok (skip_whitespace (d :: l) (pos + 1)) from
    consume_split ['&'] (d :: l) pos]
  rw [bind_ok]

theorem parse_term_dup_entry (f : Nat) (l : List Char) (pos : Nat) :
    parse_term (f + 1) ('!' :: l) pos =
      (match skip_whitespace l (pos + 1) with
       | (r, p) =>
         match read_ident r p with
         | (nm, r, p) =>
           match skip_whitespace r p with
           | (r, p) => do
             let (r, p) ← consume ['&'] r p
             let (lab, r, p) := read_ident r p
             let label := if lab.isEmpty then "L" else String.mk lab
             let (r, p) := skip_whitespace r p
             let (r, p) ← consume ['='] r p
             let (v, r, p) ← parse_term f r p
             let (r, p) ← consume [';'] r p
             let (b, r, p) ← parse_term f r p
             .ok (.Dup (String.mk nm) label v b, r, p)) := by
  conv_lhs => unfold parse_term
  rw [skip_ws_noop _ pos (by intro c hc; injection hc with hc; subst hc; decide)]
  dsimp only
  rw [if_neg (by
    intro hx
    rw [List.take_succ_cons, List.cons.injEq] at hx
    exact absurd hx.1 (by decide))]
  rw [if_neg (show ¬(('!' : Char) = '&') from by decide)]
  rw [if_pos rfl]
  rw [show consume ['!'] ('!' :: l) pos = .ok (skip_whitespace l (pos + 1)) from
    consume_split ['!'] l pos]
  rw [bind_ok]

theorem parse_term_paren_entry (f : Nat) (l : List Char) (pos : Nat) :
    parse_term (f + 1) ('(' :: l) pos =
      (match skip_whitespace l (pos + 1) with
       | (r, p) => do
         let (first, r, p) ← parse_term f r p
         match r with
         | ',' :: _ => do
           let (r, p) ← consume [','] r p
           let (second, r, p) ← parse_term f r p
           let (r, p) ← consume [')'] r p
           .ok (.Pair first second, r, p)
         | _ =>
           match r.head? with
           | some op =>
             if op = '+' || op = '-' || op = '*' || op = '/' then do
               let (r, p) ← consume [op] r p
               let (right, r, p) ← parse_term f r p
               let (r, p) ← consume [')'] r p
               .ok (.Op2 (String.mk [op]) first right, r, p)
             else do
               let (second, r, p) ← parse_term f r p
               let (r, p) ← consume [')'] r p
               .ok (.App first second, r, p)
           | none => do
             let (second, r, p) ← parse_term f r p
             let (r, p) ← consume [')'] r p
             .ok (.App first second, r, p)) := by
  conv_lhs => unfold parse_term
  rw [skip_ws_noop _ pos (by intro c hc; injection hc with hc; subst hc; decide)]
  dsimp only
  rw [if_neg (by
    intro hx
    rw [List.take_succ_cons, List.cons.injEq] at hx
    exact absurd hx.1 (by decide))]
  rw [if_neg (show ¬(('(' : Char) = '&') from by decide)]
  rw [if_neg (show ¬(('(' : Char) = '!') from by decide)]
  rw [if_neg (show ¬((('(' : Char) = 'λ' || ('(' : Char) = '\\') = true) from by decide)]
  rw [if_pos rfl]
  rw [show consume ['('] ('(' :: l) pos = .ok (skip_whitespace l (pos + 1)) from
    consume_split ['('] l pos]
  rw [bind_ok]

theorem goodLabel_parts (l : String) (h : goodLabel l = true) :
    (∀ c ∈ l.data, identChar c = true) ∧ l.data ≠ [] := by
  unfold goodLabel at h
  cases hd : l.data with
  | nil => rw [hd] at h; simp at h
  | cons c cs =>
    rw [hd] at h
    refine ⟨?_, by simp [hd]⟩
    intro d hdm
    exact List.all_eq_true.mp h d hdm

set_option maxHeartbeats 1000000 in
theorem parse_term_rt : ∀ (fl : Nat) (t : Term) (rest : List Char) (pos : Nat),
    goodTerm t = true → noExtB rest = true →
    (pretty t ++ rest).length < fl →
    parse_term fl (pretty t ++ rest) pos =
      .ok (t, skip_whitespace rest (pos + (pretty t).length)) := by
  intro fl
  induction fl with
  | zero =>
    intro t rest pos _ _ hlen
    exact absurd hlen (Nat.not_lt_zero _)
  | succ f ih =>
    intro t rest pos hg hrest hlen
    cases t with
    | Var n =>
      have hgn : goodName n = true := hg
      have hd' := hgn
      unfold goodName at hd'
      cases hd : n.data with
      | nil => rw [hd] at hd'; simp at hd'
      | cons c cs =>
        rw [hd] at hd'
        have hh : (!pyIsDigit c && (pyIsAlpha c || c = '_')) = true :=
          (Bool.and_eq_true_iff.mp ((Bool.and_eq_true_iff.mp hd').1)).1
        show parse_term (f + 1) (n.data ++ rest) pos =
          .ok (.Var n, skip_whitespace rest (pos + (pretty (.Var n)).length))
        rw [hd, List.cons_append, parse_term_var_entry f c (cs ++ rest) pos hh,
          ← List.cons_append, ← hd, parse_var_plain n rest pos hgn hrest]
        rfl
    | Dp0 n =>
      have hgn : goodName n = true := hg
      have hd' := hgn
      unfold goodName at hd'
      cases hd : n.data with
      | nil => rw [hd] at hd'; simp at hd'
      | cons c cs =>
        rw [hd] at hd'
        have hh : (!pyIsDigit c && (pyIsAlpha c || c = '_')) = true :=
          (Bool.and_eq_true_iff.mp ((Bool.and_eq_true_iff.mp hd').1)).1
        show parse_term (f + 1) ((n.data ++ ['₀']) ++ rest) pos =
          .ok (.Dp0 n, skip_whitespace rest (pos + (pretty (.Dp0 n)).length))
        rw [List.append_assoc, List.singleton_append, hd, List.cons_append,
          parse_term_var_entry f c (cs ++ '₀' :: rest) pos hh,
          ← List.cons_append, ← hd, parse_var_dp0 n rest pos hgn]
        have harith : pos + n.data.length + 1 = pos + (pretty (.Dp0 n)).length := by
          simp only [pretty, List.length_append, List.length_cons, List.length_nil]
          omega
        rw [harith]
    | Dp1 n =>
      have hgn : goodName n = true := hg
      have hd' := hgn
      unfold goodName at hd'
      cases hd : n.data with
      | nil => rw [hd] at hd'; simp at hd'
      | cons c cs =>
        rw [hd] at hd'
        have hh : (!pyIsDigit c && (pyIsAlpha c || c = '_')) = true :=
          (Bool.and_eq_true_iff.mp ((Bool.and_eq_true_iff.mp hd').1)).1
        show parse_term (f + 1) ((n.data ++ ['₁']) ++ rest) pos =
          .ok (.Dp1 n, skip_whitespace rest (pos + (pretty (.Dp1 n)).length))
        rw [List.append_assoc, List.singleton_append, hd, List.cons_append,
          parse_term_var_entry f c (cs ++ '₁' :: rest) pos hh,
          ← List.cons_append, ← hd, parse_var_dp1 n rest pos hgn]
        have harith : pos + n.data.length + 1 = pos + (pretty (.Dp1 n)).length := by
          simp only [pretty, List.length_append, List.length_cons, List.length_nil]
          omega
        rw [harith]
    | Num v =>
      have hv : (0 ≤ v) := by simpa [goodTerm] using hg
      have hnn : ¬(v < 0) := by omega
      have hpr : pretty (.Num v) = natStr v.toNat := by simp [pretty, intStr, hnn]
      obtain ⟨d, ds, hnat, hmem⟩ := natStr_head v.toNat
      have hdmem : d ∈ digitChars := hmem
      show parse_term (f + 1) (pretty (.Num v) ++ rest) pos =
        .ok (.Num v, skip_whitespace rest (pos + (pretty (.Num v)).length))
      rw [hpr, hnat, List.cons_append, parse_term_num_entry f d (ds ++ rest) pos hdmem,
        ← List.cons_append, ← hnat, parse_num_split v.toNat rest pos hrest,
        show Int.ofNat v.toNat = v from Int.toNat_of_nonneg hv]
    | Era =>
      show parse_term (f + 1) ('&' :: '{' :: '}' :: rest) pos =
        .ok (.Era, skip_whitespace rest (pos + (pretty .Era).length))
      rw [parse_term_era_entry f rest pos]
      rfl
    | Lam x b =>
      have hgx : goodName x = true := (Bool.and_eq_true_iff.mp hg).1
      have hgb : goodTerm b = true := (Bool.and_eq_true_iff.mp hg).2
      obtain ⟨xhall, -⟩ := goodName_parts x hgx
      obtain ⟨bc, bcs, hbP, hbcls⟩ := pretty_headC b hgb
      have hbws : isWs bc = false := (headClass_facts bc hbcls).1
      have hxne : x.data ≠ [] := by
        intro hx
        have := hgx
        unfold goodName at this
        rw [hx] at this
        simp at this
      show parse_term (f + 1) (('λ' :: (x.data ++ '.' :: pretty b)) ++ rest) pos =
        .ok (.Lam x b, skip_whitespace rest (pos + (pretty (.Lam x b)).length))
      rw [show ('λ' :: (x.data ++ '.' :: pretty b)) ++ rest
          = 'λ' :: (x.data ++ '.' :: (pretty b ++ rest)) from by
        simp [List.cons_append, List.append_assoc]]
      rw [parse_term_lam_entry f (x.data ++ '.' :: (pretty b ++ rest)) pos]
      rw [skip_ws_noop _ (pos + 1) (by
        cases hd : x.data with
        | nil => exact absurd hd hxne
        | cons c0 cs0 =>
          intro c hc
          rw [List.cons_append] at hc
          injection hc with hc
          subst hc
          exact identChar_not_ws c0 (xhall c0 (by rw [hd]; exact List.mem_cons_self c0 cs0)))]
      try dsimp only
      rw [read_ident_split x.data ('.' :: (pretty b ++ rest)) (pos + 1) xhall
        (noExt_any '.' _ (by decide))]
      try dsimp only
      rw [mk_data]
      rw [skip_ws_noop ('.' :: (pretty b ++ rest)) (pos + 1 + x.data.length) (by
        intro c hc; injection hc with hc; subst hc; decide)]
      try dsimp only
      rw [show consume ['.'] ('.' :: (pretty b ++ rest)) (pos + 1 + x.data.length)
          = .ok (skip_whitespace (pretty b ++ rest) (pos + 1 + x.data.length + 1)) from
        consume_split ['.'] (pretty b ++ rest) (pos + 1 + x.data.length)]
      rw [bind_ok]
      rw [skip_ws_noop (pretty b ++ rest) (pos + 1 + x.data.length + 1) (by
        intro c hc
        rw [hbP, List.cons_append] at hc
        injection hc with hc; subst hc; exact hbws)]
      try dsimp only
      rw [ih b rest (pos + 1 + x.data.length + 1) hgb hrest (by
        simp only [pretty, List.length_append, List.length_cons] at hlen ⊢
        omega)]
      rw [bind_ok]
      have harith : pos + 1 + x.data.length + 1 + (pretty b).length
          = pos + (pretty (.Lam x b)).length := by
        simp only [pretty, List.length_append, List.length_cons]
        omega
      rw [harith]
    | App g a =>
      have hgg : goodTerm g = true := (Bool.and_eq_true_iff.mp hg).1
      have hga : goodTerm a = true := (Bool.and_eq_true_iff.mp hg).2
      obtain ⟨gc, gcs, hgP, hgcls⟩ := pretty_headC g hgg
      obtain ⟨ac, acs, haP, hacls⟩ := pretty_headC a hga
      have hgws : isWs gc = false := (headClass_facts gc hgcls).1
      obtain ⟨haws, hacm, hap, ham, hax, hasl, -, -, -⟩ := headClass_facts ac hacls
      show parse_term (f + 1) (('(' :: (pretty g ++ ' ' :: (pretty a ++ [')']))) ++ rest) pos =
        .ok (.App g a, skip_whitespace rest (pos + (pretty (.App g a)).length))
      rw [show ('(' :: (pretty g ++ ' ' :: (pretty a ++ [')']))) ++ rest
          = '(' :: (pretty g ++ ' ' :: (pretty a ++ ')' :: rest)) from by
        simp [List.cons_append, List.append_assoc]]
      rw [parse_term_paren_entry f (pretty g ++ ' ' :: (pretty a ++ ')' :: rest)) pos]
      rw [skip_ws_noop _ (pos + 1) (by
        intro c hc
        rw [hgP, List.cons_append] at hc
        injection hc with hc; subst hc; exact hgws)]
      try dsimp only
      rw [ih g (' ' :: (pretty a ++ ')' :: rest)) (pos + 1) hgg
        (noExt_any ' ' _ (by decide)) (by
          simp only [pretty, List.length_append, List.length_cons] at hlen ⊢
          omega)]
      rw [bind_ok]
      try dsimp only
      rw [skip_ws_cons ' ' (pretty a ++ ')' :: rest) (pos + 1 + (pretty g).length) (by decide)]
      rw [skip_ws_noop (pretty a ++ ')' :: rest) (pos + 1 + (pretty g).length + 1) (by
        intro c hc
        rw [haP, List.cons_append] at hc
        injection hc with hc; subst hc; exact haws)]
      try dsimp only
      rw [haP, List.cons_append]
      split
      · next heq =>
        rw [List.cons.injEq] at heq
        exact absurd heq.1 hacm
      · rw [List.head?_cons]
        try dsimp only
        rw [if_neg (show ¬((ac = '+' || ac = '-' || ac = '*' || ac = '/') = true) from by
          simp [hap, ham, hax, hasl])]
        rw [← List.cons_append, ← haP]
        rw [ih a (')' :: rest) (pos + 1 + (pretty g).length + 1) hga
          (noExt_any ')' _ (by decide)) (by
            simp only [pretty, List.length_append, List.length_cons] at hlen ⊢
            omega)]
        rw [bind_ok]
        rw [skip_ws_noop (')' :: rest) (pos + 1 + (pretty g).length + 1 + (pretty a).length)
          (by intro c hc; injection hc with hc; subst hc; decide)]
        try dsimp only
        rw [show consume [')'] (')' :: rest)
              (pos + 1 + (pretty g).length + 1 + (pretty a).length)
            = .ok (skip_whitespace rest
                (pos + 1 + (pretty g).length + 1 + (pretty a).length + 1)) from
          consume_split [')'] rest (pos + 1 + (pretty g).length + 1 + (pretty a).length)]
        rw [bind_ok]
        have harith : pos + 1 + (pretty g).length + 1 + (pretty a).length + 1
            = pos + (pretty (.App g a)).length := by
          simp only [pretty, List.length_append, List.length_cons, List.length_nil]
          omega
        rw [harith]
    | Sup l a b =>
      have hgl : goodLabel l = true :=
        (Bool.and_eq_true_iff.mp ((Bool.and_eq_true_iff.mp hg).1)).1
      have hga : goodTerm a = true :=
        (Bool.and_eq_true_iff.mp ((Bool.and_eq_true_iff.mp hg).1)).2
      have hgb : goodTerm b = true := (Bool.and_eq_true_iff.mp hg).2
      obtain ⟨lhall, hlne⟩ := goodLabel_parts l hgl
      obtain ⟨ac, acs, haP, hacls⟩ := pretty_headC a hga
      obtain ⟨bc, bcs, hbP, hbcls⟩ := pretty_headC b hgb
      have haws : isWs ac = false := (headClass_facts ac hacls).1
      have hbws : isWs bc = false := (headClass_facts bc hbcls).1
      cases hld : l.data with
      | nil => exact absurd hld hlne
      | cons d ld =>
      have hdid : identChar d = true := lhall d (by rw [hld]; exact List.mem_cons_self d ld)
      have hdne : d ≠ '{' := by
        intro hx; subst hx; exact absurd hdid (by decide)
      show parse_term (f + 1)
          (('&' :: (l.data ++ '{' :: (pretty a ++ ',' :: ' ' :: (pretty b ++ ['}'])))) ++ rest) pos =
        .ok (.Sup l a b, skip_whitespace rest (pos + (pretty (.Sup l a b)).length))
      rw [show ('&' :: (l.data ++ '{' :: (pretty a ++ ',' :: ' ' :: (pretty b ++ ['}'])))) ++ rest
          = '&' :: d :: (ld ++ '{' :: (pretty a ++ ',' :: ' ' :: (pretty b ++ '}' :: rest))) from by
        rw [hld]
        simp [List.cons_append, List.append_assoc]]
      rw [parse_term_sup_entry f d (ld ++ '{' :: (pretty a ++ ',' :: ' ' :: (pretty b ++ '}' :: rest))) pos hdne]
      rw [skip_ws_noop (d :: (ld ++ '{' :: (pretty a ++ ',' :: ' ' :: (pretty b ++ '}' :: rest))))
        (pos + 1) (by
        intro c hc; injection hc with hc; subst hc; exact identChar_not_ws d hdid)]
      try dsimp only
      rw [show d :: (ld ++ '{' :: (pretty a ++ ',' :: ' ' :: (pretty b ++ '}' :: rest)))
          = l.data ++ '{' :: (pretty a ++ ',' :: ' ' :: (pretty b ++ '}' :: rest)) from by
        rw [hld, List.cons_append]]
      rw [read_ident_split l.data ('{' :: (pretty a ++ ',' :: ' ' :: (pretty b ++ '}' :: rest)))
        (pos + 1) lhall (noExt_any '{' _ (by decide))]
      try dsimp only
      have hempty : l.data.isEmpty = false := by rw [hld]; rfl
      rw [hempty, if_neg (show ¬(false = true) from by decide), mk_data]
      rw [skip_ws_noop ('{' :: (pretty a ++ ',' :: ' ' :: (pretty b ++ '}' :: rest)))
        (pos + 1 + l.data.length)
        (by intro c hc; injection hc with hc; subst hc; decide)]
      try dsimp only
      rw [show consume ['{'] ('{' :: (pretty a ++ ',' :: ' ' :: (pretty b ++ '}' :: rest)))
            (pos + 1 + l.data.length)
          = .ok (skip_whitespace (pretty a ++ ',' :: ' ' :: (pretty b ++ '}' :: rest))
              (pos + 1 + l.data.length + 1)) from
        consume_split ['{'] (pretty a ++ ',' :: ' ' :: (pretty b ++ '}' :: rest))
          (pos + 1 + l.data.length)]
      rw [bind_ok]
      rw [skip_ws_noop (pretty a ++ ',' :: ' ' :: (pretty b ++ '}' :: rest))
        (pos + 1 + l.data.length + 1) (by
        intro c hc
        rw [haP, List.cons_append] at hc
        injection hc with hc; subst hc; exact haws)]
      try dsimp only
      rw [ih a (',' :: ' ' :: (pretty b ++ '}' :: rest)) (pos + 1 + l.data.length + 1) hga
        (noExt_any ',' _ (by decide)) (by
          simp only [pretty, List.length_append, List.length_cons] at hlen ⊢
          omega)]
      rw [bind_ok]
      rw [skip_ws_noop (',' :: ' ' :: (pretty b ++ '}' :: rest))
        (pos + 1 + l.data.length + 1 + (pretty a).length)
        (by intro c hc; injection hc with hc; subst hc; decide)]
      try dsimp only
      rw [show consume [','] (',' :: ' ' :: (pretty b ++ '}' :: rest))
            (pos + 1 + l.data.length + 1 + (pretty a).length)
          = .ok (skip_whitespace (' ' :: (pretty b ++ '}' :: rest))
              (pos + 1 + l.data.length + 1 + (pretty a).length + 1)) from
        consume_split [','] (' ' :: (pretty b ++ '}' :: rest))
          (pos + 1 + l.data.length + 1 + (pretty a).length)]
      rw [bind_ok]
      rw [skip_ws_cons ' ' (pretty b ++ '}' :: rest)
        (pos + 1 + l.data.length + 1 + (pretty a).length + 1) (by decide)]
      rw [skip_ws_noop (pretty b ++ '}' :: rest)
        (pos + 1 + l.data.length + 1 + (pretty a).length + 1 + 1) (by
        intro c hc
        rw [hbP, List.cons_append] at hc
        injection hc with hc; subst hc; exact hbws)]
      try dsimp only
      rw [ih b ('}' :: rest) (pos + 1 + l.data.length + 1 + (pretty a).length + 1 + 1) hgb
        (noExt_any '}' _ (by decide)) (by
          simp only [pretty, List.length_append, List.length_cons] at hlen ⊢
          omega)]
      rw [bind_ok]
      rw [skip_ws_noop ('}' :: rest)
        (pos + 1 + l.data.length + 1 + (pretty a).length + 1 + 1 + (pretty b).length)
        (by intro c hc; injection hc with hc; subst hc; decide)]
      try dsimp only
      rw [show consume ['}'] ('}' :: rest)
            (pos + 1 + l.data.length + 1 + (pretty a).length + 1 + 1 + (pretty b).length)
          = .ok (skip_whitespace rest
              (pos + 1 + l.data.length + 1 + (pretty a).length + 1 + 1 + (pretty b).length + 1)) from
        consume_split ['}'] rest
          (pos + 1 + l.data.length + 1 + (pretty a).length + 1 + 1 + (pretty b).length)]
      rw [bind_ok]
      have harith : pos + 1 + l.data.length + 1 + (pretty a).length + 1 + 1 + (pretty b).length + 1
          = pos + (pretty (.Sup l a b)).length := by
        simp only [pretty, List.length_append, List.length_cons, List.length_nil]
        omega
      rw [harith]
    | Dup x l v b =>
      have hgx : goodName x = true :=
        (Bool.and_eq_true_iff.mp ((Bool.and_eq_true_iff.mp ((Bool.and_eq_true_iff.mp hg).1)).1)).1
      have hgl : goodLabel l = true :=
        (Bool.and_eq_true_iff.mp ((Bool.and_eq_true_iff.mp ((Bool.and_eq_true_iff.mp hg).1)).1)).2
      have hgv : goodTerm v = true :=
        (Bool.and_eq_true_iff.mp ((Bool.and_eq_true_iff.mp hg).1)).2
      have hgb : goodTerm b = true := (Bool.and_eq_true_iff.mp hg).2
      obtain ⟨xhall, -⟩ := goodName_parts x hgx
      obtain ⟨lhall, hlne⟩ := goodLabel_parts l hgl
      obtain ⟨vc, vcs, hvP, hvcls⟩ := pretty_headC v hgv
      obtain ⟨bc, bcs, hbP, hbcls⟩ := pretty_headC b hgb
      have hvws : isWs vc = false := (headClass_facts vc hvcls).1
      have hbws : isWs bc = false := (headClass_facts bc hbcls).1
      have hxne : x.data ≠ [] := by
        intro hx
        have := hgx
        unfold goodName at this
        rw [hx] at this
        simp at this
      show parse_term (f + 1)
          (('!' :: ' ' :: (x.data ++ ' ' :: '&' :: (l.data ++ '=' :: ' ' ::
            (pretty v ++ ';' :: ' ' :: pretty b)))) ++ rest) pos =
        .ok (.Dup x l v b, skip_whitespace rest (pos + (pretty (.Dup x l v b)).length))
      rw [show ('!' :: ' ' :: (x.data ++ ' ' :: '&' :: (l.data ++ '=' :: ' ' ::
            (pretty v ++ ';' :: ' ' :: pretty b)))) ++ rest
          = '!' :: (' ' :: (x.data ++ ' ' :: '&' :: (l.data ++ '=' :: ' ' ::
            (pretty v ++ ';' :: ' ' :: (pretty b ++ rest))))) from by
        simp [List.cons_append, List.append_assoc]]
      rw [parse_term_dup_entry f (' ' :: (x.data ++ ' ' :: '&' :: (l.data ++ '=' :: ' ' ::
        (pretty v ++ ';' :: ' ' :: (pretty b ++ rest))))) pos]
      rw [skip_ws_cons ' ' (x.data ++ ' ' :: '&' :: (l.data ++ '=' :: ' ' ::
        (pretty v ++ ';' :: ' ' :: (pretty b ++ rest)))) (pos + 1) (by decide)]
      rw [skip_ws_noop (x.data ++ ' ' :: '&' :: (l.data ++ '=' :: ' ' ::
        (pretty v ++ ';' :: ' ' :: (pretty b ++ rest)))) (pos + 1 + 1) (by
        cases hd : x.data with
        | nil => exact absurd hd hxne
        | cons c0 cs0 =>
          intro c hc
          rw [List.cons_append] at hc
          injection hc with hc
          subst hc
          exact identChar_not_ws c0 (xhall c0 (by rw [hd]; exact List.mem_cons_self c0 cs0)))]
      try dsimp only
      rw [read_ident_split x.data (' ' :: '&' :: (l.data ++ '=' :: ' ' ::
        (pretty v ++ ';' :: ' ' :: (pretty b ++ rest)))) (pos + 1 + 1) xhall
        (noExt_any ' ' _ (by decide))]
      try dsimp only
      rw [mk_data]
      rw [skip_ws_cons ' ' ('&' :: (l.data ++ '=' :: ' ' ::
        (pretty v ++ ';' :: ' ' :: (pretty b ++ rest))))
        (pos + 1 + 1 + x.data.length) (by decide)]
      rw [skip_ws_noop ('&' :: (l.data ++ '=' :: ' ' ::
        (pretty v ++ ';' :: ' ' :: (pretty b ++ rest))))
        (pos + 1 + 1 + x.data.length + 1)
        (by intro c hc; injection hc with hc; subst hc; decide)]
      try dsimp only
      rw [show consume ['&'] ('&' :: (l.data ++ '=' :: ' ' ::
            (pretty v ++ ';' :: ' ' :: (pretty b ++ rest))))
            (pos + 1 + 1 + x.data.length + 1)
          = .ok (skip_whitespace (l.data ++ '=' :: ' ' ::
              (pretty v ++ ';' :: ' ' :: (pretty b ++ rest)))
              (pos + 1 + 1 + x.data.length + 1 + 1)) from
        consume_split ['&'] (l.data ++ '=' :: ' ' ::
          (pretty v ++ ';' :: ' ' :: (pretty b ++ rest)))
          (pos + 1 + 1 + x.data.length + 1)]
      rw [bind_ok]
      rw [skip_ws_noop (l.data ++ '=' :: ' ' :: (pretty v ++ ';' :: ' ' :: (pretty b ++ rest)))
        (pos + 1 + 1 + x.data.length + 1 + 1) (by
        cases hld : l.data with
        | nil => exact absurd hld hlne
        | cons d0 ld0 =>
          intro c hc
          rw [List.cons_append] at hc
          injection hc with hc
          subst hc
          exact identChar_not_ws d0 (lhall d0 (by rw [hld]; exact List.mem_cons_self d0 ld0)))]
      try dsimp only
      rw [read_ident_split l.data ('=' :: ' ' :: (pretty v ++ ';' :: ' ' :: (pretty b ++ rest)))
        (pos + 1 + 1 + x.data.length + 1 + 1) lhall (noExt_any '=' _ (by decide))]
      try dsimp only
      have hempty : l.data.isEmpty = false := by
        cases hld : l.data with
        | nil => exact absurd hld hlne
        | cons d0 ld0 => rfl
      rw [hempty, if_neg (show ¬(false = true) from by decide), mk_data]
      rw [skip_ws_noop ('=' :: ' ' :: (pretty v ++ ';' :: ' ' :: (pretty b ++ rest)))
        (pos + 1 + 1 + x.data.length + 1 + 1 + l.data.length)
        (by intro c hc; injection hc with hc; subst hc; decide)]
      try dsimp only
      rw [show consume ['='] ('=' :: ' ' :: (pretty v ++ ';' :: ' ' :: (pretty b ++ rest)))
            (pos + 1 + 1 + x.data.length + 1 + 1 + l.data.length)
          = .ok (skip_whitespace (' ' :: (pretty v ++ ';' :: ' ' :: (pretty b ++ rest)))
              (pos + 1 + 1 + x.data.length + 1 + 1 + l.data.length + 1)) from
        consume_split ['='] (' ' :: (pretty v ++ ';' :: ' ' :: (pretty b ++ rest)))
          (pos + 1 + 1 + x.data.length + 1 + 1 + l.data.length)]
      rw [bind_ok]
      rw [skip_ws_cons ' ' (pretty v ++ ';' :: ' ' :: (pretty b ++ rest))
        (pos + 1 + 1 + x.data.length + 1 + 1 + l.data.length + 1) (by decide)]
      rw [skip_ws_noop (pretty v ++ ';' :: ' ' :: (pretty b ++ rest))
        (pos + 1 + 1 + x.data.length + 1 + 1 + l.data.length + 1 + 1) (by
        intro c hc
        rw [hvP, List.cons_append] at hc
        injection hc with hc; subst hc; exact hvws)]
      try dsimp only
      rw [ih v (';' :: ' ' :: (pretty b ++ rest))
        (pos + 1 + 1 + x.data.length + 1 + 1 + l.data.length + 1 + 1) hgv
        (noExt_any ';' _ (by decide)) (by
          simp only [pretty, List.length_append, List.length_cons] at hlen ⊢
          omega)]
      rw [bind_ok]
      rw [skip_ws_noop (';' :: ' ' :: (pretty b ++ rest))
        (pos + 1 + 1 + x.data.length + 1 + 1 + l.data.length + 1 + 1 + (pretty v).length)
        (by intro c hc; injection hc with hc; subst hc; decide)]
      try dsimp only
      rw [show consume [';'] (';' :: ' ' :: (pretty b ++ rest))
            (pos + 1 + 1 + x.data.length + 1 + 1 + l.data.length + 1 + 1 + (pretty v).length)
          = .ok (skip_whitespace (' ' :: (pretty b ++ rest))
              (pos + 1 + 1 + x.data.length + 1 + 1 + l.data.length + 1 + 1 + (pretty v).length + 1)) from
        consume_split [';'] (' ' :: (pretty b ++ rest))
          (pos + 1 + 1 + x.data.length + 1 + 1 + l.data.length + 1 + 1 + (pretty v).length)]
      rw [bind_ok]
      rw [skip_ws_cons ' ' (pretty b ++ rest)
        (pos + 1 + 1 + x.data.length + 1 + 1 + l.data.length + 1 + 1 + (pretty v).length + 1)
        (by decide)]
      rw [skip_ws_noop (pretty b ++ rest)
        (pos + 1 + 1 + x.data.length + 1 + 1 + l.data.length + 1 + 1 + (pretty v).length + 1 + 1) (by
        intro c hc
        rw [hbP, List.cons_append] at hc
        injection hc with hc; subst hc; exact hbws)]
      try dsimp only
      rw [ih b rest
        (pos + 1 + 1 + x.data.length + 1 + 1 + l.data.length + 1 + 1 + (pretty v).length + 1 + 1)
        hgb hrest (by
          simp only [pretty, List.length_append, List.length_cons] at hlen ⊢
          omega)]
      rw [bind_ok]
      have harith : pos + 1 + 1 + x.data.length + 1 + 1 + l.data.length + 1 + 1 +
            (pretty v).length + 1 + 1 + (pretty b).length
          = pos + (pretty (.Dup x l v b)).length := by
        simp only [pretty, List.length_append, List.length_cons, List.length_nil]
        omega
      rw [harith]
    | Op2 op g r =>
      have hgop : goodOp op = true :=
        (Bool.and_eq_true_iff.mp ((Bool.and_eq_true_iff.mp hg).1)).1
      have hgg : goodTerm g = true :=
        (Bool.and_eq_true_iff.mp ((Bool.and_eq_true_iff.mp hg).1)).2
      have hgr : goodTerm r = true := (Bool.and_eq_true_iff.mp hg).2
      obtain ⟨oc, hopd, hmk, hopb, hocws, hoccm⟩ := goodOp_parts op hgop
      obtain ⟨gc, gcs, hgP, hgcls⟩ := pretty_headC g hgg
      obtain ⟨rc, rcs, hrP, hrcls⟩ := pretty_headC r hgr
      have hgws : isWs gc = false := (headClass_facts gc hgcls).1
      have hrws : isWs rc = false := (headClass_facts rc hrcls).1
      show parse_term (f + 1)
          (('(' :: (pretty g ++ ' ' :: (op.data ++ ' ' :: (pretty r ++ [')'])))) ++ rest) pos =
        .ok (.Op2 op g r, skip_whitespace rest (pos + (pretty (.Op2 op g r)).length))
      rw [show ('(' :: (pretty g ++ ' ' :: (op.data ++ ' ' :: (pretty r ++ [')'])))) ++ rest
          = '(' :: (pretty g ++ ' ' :: oc :: ' ' :: (pretty r ++ ')' :: rest)) from by
        rw [hopd]
        simp [List.cons_append, List.append_assoc]]
      rw [parse_term_paren_entry f (pretty g ++ ' ' :: oc :: ' ' :: (pretty r ++ ')' :: rest)) pos]
      rw [skip_ws_noop _ (pos + 1) (by
        intro c hc
        rw [hgP, List.cons_append] at hc
        injection hc with hc; subst hc; exact hgws)]
      try dsimp only
      rw [ih g (' ' :: oc :: ' ' :: (pretty r ++ ')' :: rest)) (pos + 1) hgg
        (noExt_any ' ' _ (by decide)) (by
          simp only [pretty, hopd, List.length_append, List.length_cons] at hlen ⊢
          omega)]
      rw [bind_ok]
      try dsimp only
      rw [skip_ws_cons ' ' (oc :: ' ' :: (pretty r ++ ')' :: rest))
        (pos + 1 + (pretty g).length) (by decide)]
      rw [skip_ws_noop (oc :: ' ' :: (pretty r ++ ')' :: rest))
        (pos + 1 + (pretty g).length + 1)
        (by intro c hc; injection hc with hc; subst hc; exact hocws)]
      try dsimp only
      split
      · next heq =>
        rw [List.cons.injEq] at heq
        exact absurd heq.1 hoccm
      · rw [List.head?_cons]
        try dsimp only
        rw [if_pos hopb]
        rw [show consume [oc] (oc :: ' ' :: (pretty r ++ ')' :: rest))
              (pos + 1 + (pretty g).length + 1)
            = .ok (skip_whitespace (' ' :: (pretty r ++ ')' :: rest))
                (pos + 1 + (pretty g).length + 1 + 1)) from
          consume_split [oc] (' ' :: (pretty r ++ ')' :: rest))
            (pos + 1 + (pretty g).length + 1)]
        rw [bind_ok]
        rw [skip_ws_cons ' ' (pretty r ++ ')' :: rest)
          (pos + 1 + (pretty g).length + 1 + 1) (by decide)]
        rw [skip_ws_noop (pretty r ++ ')' :: rest)
          (pos + 1 + (pretty g).length + 1 + 1 + 1) (by
          intro c hc
          rw [hrP, List.cons_append] at hc
          injection hc with hc; subst hc; exact hrws)]
        try dsimp only
        rw [ih r (')' :: rest) (pos + 1 + (pretty g).length + 1 + 1 + 1) hgr
          (noExt_any ')' _ (by decide)) (by
            simp only [pretty, hopd, List.length_append, List.length_cons] at hlen ⊢
            omega)]
        rw [bind_ok]
        rw [skip_ws_noop (')' :: rest)
          (pos + 1 + (pretty g).length + 1 + 1 + 1 + (pretty r).length)
          (by intro c hc; injection hc with hc; subst hc; decide)]
        try dsimp only
        rw [show consume [')'] (')' :: rest)
              (pos + 1 + (pretty g).length + 1 + 1 + 1 + (pretty r).length)
            = .ok (skip_whitespace rest
                (pos + 1 + (pretty g).length + 1 + 1 + 1 + (pretty r).length + 1)) from
          consume_split [')'] rest
            (pos + 1 + (pretty g).length + 1 + 1 + 1 + (pretty r).length)]
        rw [bind_ok]
        rw [hmk]
        have harith : pos + 1 + (pretty g).length + 1 + 1 + 1 + (pretty r).length + 1
            = pos + (pretty (.Op2 op g r)).length := by
          simp only [pretty, hopd, List.length_append, List.length_cons, List.length_nil]
          omega
        rw [harith]
    | Pair a b =>
      have hga : goodTerm a = true := (Bool.and_eq_true_iff.mp hg).1
      have hgb : goodTerm b = true := (Bool.and_eq_true_iff.mp hg).2
      obtain ⟨ac, acs, haP, hacls⟩ := pretty_headC a hga
      obtain ⟨bc, bcs, hbP, hbcls⟩ := pretty_headC b hgb
      have haws : isWs ac = false := (headClass_facts ac hacls).1
      have hbws : isWs bc = false := (headClass_facts bc hbcls).1
      show parse_term (f + 1) (('(' :: (pretty a ++ ',' :: ' ' :: (pretty b ++ [')']))) ++ rest) pos =
        .ok (.Pair a b, skip_whitespace rest (pos + (pretty (.Pair a b)).length))
      rw [show ('(' :: (pretty a ++ ',' :: ' ' :: (pretty b ++ [')']))) ++ rest
          = '(' :: (pretty a ++ ',' :: ' ' :: (pretty b ++ ')' :: rest)) from by
        simp [List.cons_append, List.append_assoc]]
      rw [parse_term_paren_entry f (pretty a ++ ',' :: ' ' :: (pretty b ++ ')' :: rest)) pos]
      rw [skip_ws_noop _ (pos + 1) (by
        intro c hc
        rw [haP, List.cons_append] at hc
        injection hc with hc; subst hc; exact haws)]
      try dsimp only
      rw [ih a (',' :: ' ' :: (pretty b ++ ')' :: rest)) (pos + 1) hga
        (noExt_any ',' _ (by decide)) (by
          simp only [pretty, List.length_append, List.length_cons] at hlen ⊢
          omega)]
      rw [bind_ok]
      try dsimp only
      rw [skip_ws_noop (',' :: ' ' :: (pretty b ++ ')' :: rest)) (pos + 1 + (pretty a).length)
        (by intro c hc; injection hc with hc; subst hc; decide)]
      try dsimp only
      split
      case h_2 x h => exact ((h (' ' :: (pretty b ++ ')' :: rest))) rfl).elim
      case h_1 =>
      rw [show consume [','] (',' :: ' ' :: (pretty b ++ ')' :: rest))
            (pos + 1 + (pretty a).length)
          = .ok (skip_whitespace (' ' :: (pretty b ++ ')' :: rest))
              (pos + 1 + (pretty a).length + 1)) from
        consume_split [','] (' ' :: (pretty b ++ ')' :: rest)) (pos + 1 + (pretty a).length)]
      rw [bind_ok]
      rw [skip_ws_cons ' ' (pretty b ++ ')' :: rest) (pos + 1 + (pretty a).length + 1) (by decide)]
      rw [skip_ws_noop (pretty b ++ ')' :: rest) (pos + 1 + (pretty a).length + 1 + 1) (by
        intro c hc
        rw [hbP, List.cons_append] at hc
        injection hc with hc; subst hc; exact hbws)]
      try dsimp only
      rw [ih b (')' :: rest) (pos + 1 + (pretty a).length + 1 + 1) hgb
        (noExt_any ')' _ (by decide)) (by
          simp only [pretty, List.length_append, List.length_cons] at hlen ⊢
          omega)]
      rw [bind_ok]
      rw [skip_ws_noop (')' :: rest)
        (pos + 1 + (pretty a).length + 1 + 1 + (pretty b).length)
        (by intro c hc; injection hc with hc; subst hc; decide)]
      try dsimp only
      rw [show consume [')'] (')' :: rest)
            (pos + 1 + (pretty a).length + 1 + 1 + (pretty b).length)
          = .ok (skip_whitespace rest
              (pos + 1 + (pretty a).length + 1 + 1 + (pretty b).length + 1)) from
        consume_split [')'] rest (pos + 1 + (pretty a).length + 1 + 1 + (pretty b).length)]
      rw [bind_ok]
      have harith : pos + 1 + (pretty a).length + 1 + 1 + (pretty b).length + 1
          = pos + (pretty (.Pair a b)).length := by
        simp only [pretty, List.length_append, List.length_cons, List.length_nil]
        omega
      rw [harith]

theorem read_name_stop_us : ∀ (nm : List Char) (d : Char) (rest : List Char) (p : Nat),
    (∀ c ∈ nm, identChar c = true) → noUnd01 nm = true → (d = '0' ∨ d = '1') →
    read_name (nm ++ '_' :: d :: rest) p = (nm, '_' :: d :: rest, p + nm.length) := by
  intro nm
  induction nm with
  | nil =>
    intro d rest p _ _ hd
    show read_name ('_' :: d :: rest) p = ([], '_' :: d :: rest, p + 0)
    rcases hd with rfl | rfl <;> (unfold read_name; simp)
  | cons c nm' ih =>
    intro d rest p hall hnu hd
    have hc : identChar c = true := hall c (List.mem_cons_self c nm')
    have hall' : ∀ e ∈ nm', identChar e = true :=
      fun e he => hall e (List.mem_cons_of_mem c he)
    have hsplit := hnu
    simp only [noUnd01, Bool.and_eq_true] at hsplit
    have hnu' : noUnd01 nm' = true := hsplit.2
    have hcond :
        (c = '_' && ((nm' ++ '_' :: d :: rest).head? = some '0' ||
          (nm' ++ '_' :: d :: rest).head? = some '1')) = false := by
      by_cases hcu : c = '_'
      · subst hcu
        have h1 := hsplit.1
        rw [if_pos rfl] at h1
        cases nm' with
        | nil => exact absurd h1 (by simp)
        | cons e nm'' =>
          simp at h1
          simp [h1.1, h1.2]
      · simp [hcu]
    show read_name ((c :: nm') ++ '_' :: d :: rest) p
      = (c :: nm', '_' :: d :: rest, p + (c :: nm').length)
    rw [List.cons_append]
    unfold read_name
    rw [show (c.toNat < 128 && (c.isAlphanum || c = '_')) = true from hc]
    simp only [if_true]
    rw [hcond]
    simp only [Bool.false_eq_true, if_false, ih d rest (p + 1) hall' hnu' hd,
      List.length_cons]
    have harith : p + 1 + nm'.length = p + (nm'.length + 1) := by omega
    rw [harith]

theorem parse_var_us0 (n : String) (rest : List Char) (p : Nat)
    (hg : goodName n = true) :
    parse_var (n.data ++ '_' :: '0' :: rest) p =
      (.Dp0 n, skip_whitespace rest (p + n.data.length + 2)) := by
  obtain ⟨hall, hnu⟩ := goodName_parts n hg
  unfold parse_var
  rw [read_name_stop_us n.data '0' rest p hall hnu (Or.inl rfl)]
  simp only [mk_data]

theorem parse_var_us1 (n : String) (rest : List Char) (p : Nat)
    (hg : goodName n = true) :
    parse_var (n.data ++ '_' :: '1' :: rest) p =
      (.Dp1 n, skip_whitespace rest (p + n.data.length + 2)) := by
  obtain ⟨hall, hnu⟩ := goodName_parts n hg
  unfold parse_var
  rw [read_name_stop_us n.data '1' rest p hall hnu (Or.inr rfl)]
  simp only [mk_data]

/-- C5 (confirmed): parsing the pretty-printed form of any term from the
representative generator returns the term itself, structurally equal (the
canonical printer emits the Unicode subscripts, which the parser maps back
to the same constructors). -/
theorem C5_roundtrip (t : Term) (h : goodTerm t = true) : parse (pretty t) = .ok t := by
  obtain ⟨c, cs, hP, hcls⟩ := pretty_headC t h
  have hws : isWs c = false := (headClass_facts c hcls).1
  unfold parse
  rw [skip_ws_noop (pretty t) 0 (by
    intro c' hc'
    rw [hP] at hc'
    injection hc' with hc'
    subst hc'
    exact hws)]
  try dsimp only
  have hpt := parse_term_rt ((pretty t).length + 1) t [] 0 h rfl (by simp)
  rw [List.append_nil] at hpt
  rw [hpt]
  rfl

/-- C5 (witness): the round trip evaluated on a term using every variant
class: a duplication of a superposition over arithmetic, bound in a pair of
an application and a projection. -/
theorem C5_witness :
    goodTerm (.Dup "x" "L" (.Sup "R" (.Num 10) (.Op2 "+" (.Num 1) (.Num 2)))
      (.Pair (.App (.Lam "y" (.Var "y")) (.Dp0 "x")) (.Dp1 "x"))) = true ∧
    parse (pretty (.Dup "x" "L" (.Sup "R" (.Num 10) (.Op2 "+" (.Num 1) (.Num 2)))
      (.Pair (.App (.Lam "y" (.Var "y")) (.Dp0 "x")) (.Dp1 "x")))) =
      .ok (.Dup "x" "L" (.Sup "R" (.Num 10) (.Op2 "+" (.Num 1) (.Num 2)))
        (.Pair (.App (.Lam "y" (.Var "y")) (.Dp0 "x")) (.Dp1 "x"))) :=
  ⟨by decide, C5_roundtrip _ (by decide)⟩

/-- C8 (confirmed): for every identifier `x` of the grammar, the scanner
stops before an underscore followed by `0` or `1`, so `x_0` parses to
`DP0(x)` and `x_1` to `DP1(x)`, and the Unicode forms `x₀`/`x₁` parse to
the same terms. -/
theorem C8_subscripts (x : String) (h : goodName x = true) :
    parse (x.data ++ ['_', '0']) = .ok (.Dp0 x) ∧
    parse (x.data ++ ['_', '1']) = .ok (.Dp1 x) ∧
    parse (x.data ++ ['₀']) = .ok (.Dp0 x) ∧
    parse (x.data ++ ['₁']) = .ok (.Dp1 x) := by
  have hd' := h
  unfold goodName at hd'
  refine ⟨?_, ?_, ?_, ?_⟩ <;>
  · cases hd : x.data with
    | nil => rw [hd] at hd'; simp at hd'
    | cons c cs =>
      rw [hd] at hd'
      have hh : (!pyIsDigit c && (pyIsAlpha c || c = '_')) = true :=
        (Bool.and_eq_true_iff.mp ((Bool.and_eq_true_iff.mp hd').1)).1
      have hws : isWs c = false := by
        have hcls : (pyIsAlpha c || c = '_') = true := (Bool.and_eq_true_iff.mp hh).2
        by_contra hx
        have hw : isWs c = true := by revert hx; cases isWs c <;> simp
        rcases ws_cases c hw with rfl | rfl | rfl | rfl <;> exact absurd hcls (by decide)
      unfold parse
      rw [List.cons_append]
      rw [skip_ws_noop _ 0 (by intro c' hc'; injection hc' with hc'; subst hc'; exact hws)]
      try dsimp only
      rw [parse_term_var_entry _ c _ 0 hh]
      rw [← List.cons_append, ← hd]
      first
      | rw [parse_var_us0 x _ 0 h]
      | rw [parse_var_us1 x _ 0 h]
      | rw [show (['₀'] : List Char) = '₀' :: [] from rfl, parse_var_dp0 x [] 0 h]
      | rw [show (['₁'] : List Char) = '₁' :: [] from rfl, parse_var_dp1 x [] 0 h]
      rfl

/-- C8 (witness): the subscript forms evaluated at the identifier `x`. -/
theorem C8_witness :
    goodName "x" = true ∧ parse ("x".data ++ ['_', '0']) = .ok (.Dp0 "x") ∧
      parse ("x".data ++ ['₀']) = .ok (.Dp0 "x") :=
  ⟨by decide, (C8_subscripts "x" (by decide)).1, (C8_subscripts "x" (by decide)).2.2.1⟩


/-!
Claim C9.  The parser only builds `Op2` nodes with one of the four operators
`compute_op` knows, and every reduction rule preserves that invariant, so the
`ValueError` branch of `compute_op` is unreachable from parsed inputs and
normalisation of a parsed term never raises.
-/

/-- The operator invariant: every `Op2` node of the term carries one of the
four operators `compute_op` handles. -/
def ops_ok : Term → Bool
  | .Var _ => true
  | .Dp0 _ => true
  | .Dp1 _ => true
  | .Num _ => true
  | .Era => true
  | .Lam _ b => ops_ok b
  | .App f a => ops_ok f && ops_ok a
  | .Sup _ a b => ops_ok a && ops_ok b
  | .Dup _ _ v b => ops_ok v && ops_ok b
  | .Op2 op l r => goodOp op && ops_ok l && ops_ok r
  | .Pair a b => ops_ok a && ops_ok b

/-- On the four known operators `compute_op` always succeeds: the
`ValueError` arm needs a fifth operator string. -/
theorem compute_op_total (op : String) (a b : Int) (h : goodOp op = true) :
    ∃ v, compute_op op a b = some v := by
  unfold goodOp at h
  simp only [Bool.or_eq_true, decide_eq_true_eq] at h
  rcases h with ((rfl | rfl) | rfl) | rfl <;> exact ⟨_, rfl⟩

/-- `substitute` preserves the operator invariant. -/
theorem ops_ok_substitute (var : String) (v : Term) (hv : ops_ok v = true) :
    ∀ t : Term, ops_ok t = true → ops_ok (substitute t var v) = true := by
  intro t
  induction t with
  | Var n =>
    intro ht
    simp only [substitute]
    split
    · exact hv
    · exact ht
  | Dp0 n => intro ht; exact ht
  | Dp1 n => intro ht; exact ht
  | Num m => intro ht; exact ht
  | Era => intro ht; exact ht
  | Lam x b ihb =>
    intro ht
    simp only [substitute]
    split
    · exact ht
    · exact ihb ht
  | App f a ihf iha =>
    intro ht
    simp only [ops_ok, Bool.and_eq_true] at ht
    simp only [substitute, ops_ok, Bool.and_eq_true]
    exact ⟨ihf ht.1, iha ht.2⟩
  | Sup l a b iha ihb =>
    intro ht
    simp only [ops_ok, Bool.and_eq_true] at ht
    simp only [substitute, ops_ok, Bool.and_eq_true]
    exact ⟨iha ht.1, ihb ht.2⟩
  | Dup n l vv b ihv ihb =>
    intro ht
    simp only [ops_ok, Bool.and_eq_true] at ht
    simp only [substitute, ops_ok, Bool.and_eq_true]
    exact ⟨ihv ht.1, ihb ht.2⟩
  | Op2 op l r ihl ihr =>
    intro ht
    simp only [ops_ok, Bool.and_eq_true] at ht
    simp only [substitute, ops_ok, Bool.and_eq_true]
    exact ⟨⟨ht.1.1, ihl ht.1.2⟩, ihr ht.2⟩
  | Pair a b iha ihb =>
    intro ht
    simp only [ops_ok, Bool.and_eq_true] at ht
    simp only [substitute, ops_ok, Bool.and_eq_true]
    exact ⟨iha ht.1, ihb ht.2⟩

/-- `substitute_dp` preserves the operator invariant. -/
theorem ops_ok_substitute_dp (name : String) (v0 v1 : Term)
    (h0 : ops_ok v0 = true) (h1 : ops_ok v1 = true) :
    ∀ t : Term, ops_ok t = true → ops_ok (substitute_dp t name v0 v1) = true := by
  intro t
  induction t with
  | Var n => intro ht; exact ht
  | Dp0 n =>
    intro ht
    simp only [substitute_dp]
    split
    · exact h0
    · exact ht
  | Dp1 n =>
    intro ht
    simp only [substitute_dp]
    split
    · exact h1
    · exact ht
  | Num m => intro ht; exact ht
  | Era => intro ht; exact ht
  | Lam x b ihb => intro ht; exact ihb ht
  | App f a ihf iha =>
    intro ht
    simp only [ops_ok, Bool.and_eq_true] at ht
    simp only [substitute_dp, ops_ok, Bool.and_eq_true]
    exact ⟨ihf ht.1, iha ht.2⟩
  | Sup l a b iha ihb =>
    intro ht
    simp only [ops_ok, Bool.and_eq_true] at ht
    simp only [substitute_dp, ops_ok, Bool.and_eq_true]
    exact ⟨iha ht.1, ihb ht.2⟩
  | Dup n l vv b ihv ihb =>
    intro ht
    simp only [ops_ok, Bool.and_eq_true] at ht
    simp only [substitute_dp, ops_ok, Bool.and_eq_true]
    exact ⟨ihv ht.1, ihb ht.2⟩
  | Op2 op l r ihl ihr =>
    intro ht
    simp only [ops_ok, Bool.and_eq_true] at ht
    simp only [substitute_dp, ops_ok, Bool.and_eq_true]
    exact ⟨⟨ht.1.1, ihl ht.1.2⟩, ihr ht.2⟩
  | Pair a b iha ihb =>
    intro ht
    simp only [ops_ok, Bool.and_eq_true] at ht
    simp only [substitute_dp, ops_ok, Bool.and_eq_true]
    exact ⟨iha ht.1, ihb ht.2⟩


/-- The fallthrough arm of `reduce_dup` (a value whose head matches no DUP
rule): given the one-step shape of the pass, the result exists and keeps the
operator invariant. -/
theorem reduce_dup_fall (f c c₁ : Nat) (x l : String) (v b value : Term)
    (hv2 : ops_ok value = true) (hb : ops_ok b = true)
    (ihb : ∀ (c : Nat) (t : Term), ops_ok t = true →
      ∃ t' c', reduce f c t = some (t', c') ∧ ops_ok t' = true)
    (hshape : reduce (f + 1) c (.Dup x l v b) =
      (if pretty value ≠ pretty v then some (.Dup x l value b, c₁)
       else match reduce f c₁ b with
            | none => none
            | some (nb, c₂) => some (.Dup x l value nb, c₂))) :
    ∃ t' c', reduce (f + 1) c (.Dup x l v b) = some (t', c') ∧ ops_ok t' = true := by
  rw [hshape]
  by_cases hp : pretty value = pretty v
  · obtain ⟨nb, c₂, hrb, hokb⟩ := ihb c₁ b hb
    rw [if_neg (not_not_intro hp), hrb]
    refine ⟨_, _, rfl, ?_⟩
    simp only [ops_ok, Bool.and_eq_true]
    exact ⟨hv2, hokb⟩
  · rw [if_pos hp]
    refine ⟨_, _, rfl, ?_⟩
    simp only [ops_ok, Bool.and_eq_true]
    exact ⟨hv2, hb⟩

/-- The combination step of `reduce_op2` after both operands have been
reduced: one pass at fuel 1 leaves the operands untouched and performs
exactly the combination match, which always succeeds when the operator is
one of the four known ones, and its result keeps the operator invariant. -/
theorem op2_combine_ok (op : String) (left right : Term) (c₂ : Nat)
    (hop : goodOp op = true) (hlok : ops_ok left = true)
    (hrok : ops_ok right = true) :
    ∃ t' c', reduce 1 c₂ (.Op2 op left right) = some (t', c') ∧
      ops_ok t' = true := by
  cases left <;> cases right <;>
    first
    | (rename_i a b
       obtain ⟨v, hv⟩ := compute_op_total op a b hop
       refine ⟨Term.Num v, c₂, ?_, rfl⟩
       show reduce (0 + 1) c₂ (Term.Op2 op (Term.Num a) (Term.Num b)) =
         some (Term.Num v, c₂)
       simp [reduce, hv])
    | (refine ⟨_, _, rfl, ?_⟩
       simp_all [ops_ok])

/-- One pass of the reducer on a term satisfying the operator invariant
always succeeds (no `ValueError` escapes) and its result satisfies the
invariant again, at every fuel. -/
theorem reduce_ops_ok : ∀ (f c : Nat) (t : Term), ops_ok t = true →
    ∃ t' c', reduce f c t = some (t', c') ∧ ops_ok t' = true := by
  intro f
  induction f with
  | zero => intro c t h; exact ⟨t, c, rfl, h⟩
  | succ f ih =>
    intro c t h
    cases t with
    | Var n => exact ⟨_, _, rfl, rfl⟩
    | Dp0 n => exact ⟨_, _, rfl, rfl⟩
    | Dp1 n => exact ⟨_, _, rfl, rfl⟩
    | Num v => exact ⟨_, _, rfl, rfl⟩
    | Era => exact ⟨_, _, rfl, rfl⟩
    | Lam x b =>
      obtain ⟨b', c₁, hb, hok⟩ := ih c b h
      exact ⟨.Lam x b', c₁, by simp [reduce, hb], hok⟩
    | Sup l a b =>
      simp only [ops_ok, Bool.and_eq_true] at h
      obtain ⟨a', c₁, hra, hoka⟩ := ih c a h.1
      obtain ⟨b', c₂, hrb, hokb⟩ := ih c₁ b h.2
      refine ⟨.Sup l a' b', c₂, by simp [reduce, hra, hrb], ?_⟩
      simp only [ops_ok, Bool.and_eq_true]
      exact ⟨hoka, hokb⟩
    | Pair a b =>
      simp only [ops_ok, Bool.and_eq_true] at h
      obtain ⟨a', c₁, hra, hoka⟩ := ih c a h.1
      obtain ⟨b', c₂, hrb, hokb⟩ := ih c₁ b h.2
      refine ⟨.Pair a' b', c₂, by simp [reduce, hra, hrb], ?_⟩
      simp only [ops_ok, Bool.and_eq_true]
      exact ⟨hoka, hokb⟩
    | App fn a =>
      simp only [ops_ok, Bool.and_eq_true] at h
      obtain ⟨func, c₁, hfn, hok1⟩ := ih c fn h.1
      cases func with
      | Lam v b =>
        exact ⟨substitute b v a, c₁, by simp [reduce, hfn],
          ops_ok_substitute v a h.2 b hok1⟩
      | Sup l sa sb =>
        simp only [ops_ok, Bool.and_eq_true] at hok1
        refine ⟨.Dup (fresh_name c₁ "x").1 l a
            (.Sup l (.App sa (.Dp0 (fresh_name c₁ "x").1))
              (.App sb (.Dp1 (fresh_name c₁ "x").1))),
          (fresh_name c₁ "x").2, ?_, ?_⟩
        · rw [reduce]
          try dsimp only
          rw [hfn]
          try dsimp only
          try rfl
          try exact rfl
        · simp [ops_ok, h.2, hok1.1, hok1.2]
      | Era => exact ⟨.Era, c₁, by simp [reduce, hfn], rfl⟩
      | Var n =>
        obtain ⟨a', c₂, hra, hoka⟩ := ih c₁ a h.2
        exact ⟨.App (.Var n) a', c₂, by simp [reduce, hfn, hra],
          by simp [ops_ok, hoka]⟩
      | Dp0 n =>
        obtain ⟨a', c₂, hra, hoka⟩ := ih c₁ a h.2
        exact ⟨.App (.Dp0 n) a', c₂, by simp [reduce, hfn, hra],
          by simp [ops_ok, hoka]⟩
      | Dp1 n =>
        obtain ⟨a', c₂, hra, hoka⟩ := ih c₁ a h.2
        exact ⟨.App (.Dp1 n) a', c₂, by simp [reduce, hfn, hra],
          by simp [ops_ok, hoka]⟩
      | Num v =>
        obtain ⟨a', c₂, hra, hoka⟩ := ih c₁ a h.2
        exact ⟨.App (.Num v) a', c₂, by simp [reduce, hfn, hra],
          by simp [ops_ok, hoka]⟩
      | App g1 g2 =>
        obtain ⟨a', c₂, hra, hoka⟩ := ih c₁ a h.2
        refine ⟨.App (.App g1 g2) a', c₂, by simp [reduce, hfn, hra], ?_⟩
        simp only [ops_ok, Bool.and_eq_true] at hok1 ⊢
        exact ⟨hok1, hoka⟩
      | Dup n l v b =>
        obtain ⟨a', c₂, hra, hoka⟩ := ih c₁ a h.2
        refine ⟨.App (.Dup n l v b) a', c₂, by simp [reduce, hfn, hra], ?_⟩
        simp only [ops_ok, Bool.and_eq_true] at hok1 ⊢
        exact ⟨hok1, hoka⟩
      | Op2 op l r =>
        obtain ⟨a', c₂, hra, hoka⟩ := ih c₁ a h.2
        refine ⟨.App (.Op2 op l r) a', c₂, by simp [reduce, hfn, hra], ?_⟩
        simp only [ops_ok, Bool.and_eq_true] at hok1 ⊢
        exact ⟨hok1, hoka⟩
      | Pair p1 p2 =>
        obtain ⟨a', c₂, hra, hoka⟩ := ih c₁ a h.2
        refine ⟨.App (.Pair p1 p2) a', c₂, by simp [reduce, hfn, hra], ?_⟩
        simp only [ops_ok, Bool.and_eq_true] at hok1 ⊢
        exact ⟨hok1, hoka⟩
    | Dup x l v b =>
      simp only [ops_ok, Bool.and_eq_true] at h
      obtain ⟨value, c₁, hval, hvok⟩ := ih c v h.1
      by_cases hc : (!contains_dp b x 0 && !contains_dp b x 1) = true
      · obtain ⟨b', c₂, hrb, hokb⟩ := ih c₁ b h.2
        refine ⟨b', c₂, ?_, hokb⟩
        rw [reduce]; try dsimp only
        rw [hval]; try dsimp only
        rw [if_pos hc]
        exact hrb
      · cases value with
        | Num n =>
          obtain ⟨r, c₂, hr, hokr⟩ :=
            ih c₁ (substitute_dp b x (.Num n) (.Num n))
              (ops_ok_substitute_dp x (.Num n) (.Num n) rfl rfl b h.2)
          refine ⟨r, c₂, ?_, hokr⟩
          rw [reduce]; try dsimp only
          rw [hval]; try dsimp only
          rw [if_neg hc]; try dsimp only
          exact hr
        | Era =>
          obtain ⟨r, c₂, hr, hokr⟩ :=
            ih c₁ (substitute_dp b x .Era .Era)
              (ops_ok_substitute_dp x .Era .Era rfl rfl b h.2)
          refine ⟨r, c₂, ?_, hokr⟩
          rw [reduce]; try dsimp only
          rw [hval]; try dsimp only
          rw [if_neg hc]; try dsimp only
          exact hr
        | Sup l' sa sb =>
          simp only [ops_ok, Bool.and_eq_true] at hvok
          by_cases hl : l' = l
          · obtain ⟨r, c₂, hr, hokr⟩ :=
              ih c₁ (substitute_dp b x sa sb)
                (ops_ok_substitute_dp x sa sb hvok.1 hvok.2 b h.2)
            refine ⟨r, c₂, ?_, hokr⟩
            rw [reduce]; try dsimp only
            rw [hval]; try dsimp only
            rw [if_neg hc]; try dsimp only
            rw [if_pos hl]
            exact hr
          · obtain ⟨r, c₂, hr, hokr⟩ :=
              ih ((fresh_name (fresh_name c₁ "a").2 "b").2)
                (.Dup (fresh_name c₁ "a").1 l sa
                  (.Dup (fresh_name (fresh_name c₁ "a").2 "b").1 l sb
                    (substitute_dp b x
                      (.Sup l' (.Dp0 (fresh_name c₁ "a").1)
                        (.Dp0 (fresh_name (fresh_name c₁ "a").2 "b").1))
                      (.Sup l' (.Dp1 (fresh_name c₁ "a").1)
                        (.Dp1 (fresh_name (fresh_name c₁ "a").2 "b").1)))))
                (by
                  simp only [ops_ok, Bool.and_eq_true]
                  refine ⟨hvok.1, hvok.2,
                    ops_ok_substitute_dp x _ _ ?_ ?_ b h.2⟩ <;> rfl)
            refine ⟨r, c₂, ?_, hokr⟩
            rw [reduce]; try dsimp only
            rw [hval]; try dsimp only
            rw [if_neg hc]; try dsimp only
            rw [if_neg hl]
            exact hr
        | Lam vv vb =>
          obtain ⟨r, c₂, hr, hokr⟩ :=
            ih ((fresh_name (fresh_name (fresh_name c₁ "x").2 "x").2 "b").2)
              (.Dup (fresh_name (fresh_name (fresh_name c₁ "x").2 "x").2 "b").1 l
                (substitute vb vv
                  (.Sup l (.Var (fresh_name c₁ "x").1)
                    (.Var (fresh_name (fresh_name c₁ "x").2 "x").1)))
                (substitute_dp b x
                  (.Lam (fresh_name c₁ "x").1
                    (.Dp0 (fresh_name (fresh_name (fresh_name c₁ "x").2 "x").2 "b").1))
                  (.Lam (fresh_name (fresh_name c₁ "x").2 "x").1
                    (.Dp1 (fresh_name (fresh_name (fresh_name c₁ "x").2 "x").2 "b").1))))
              (by
                simp only [ops_ok, Bool.and_eq_true]
                refine ⟨ops_ok_substitute vv _ ?_ vb hvok,
                  ops_ok_substitute_dp x _ _ ?_ ?_ b h.2⟩ <;> rfl)
          refine ⟨r, c₂, ?_, hokr⟩
          rw [reduce]; try dsimp only
          rw [hval]; try dsimp only
          rw [if_neg hc]; try dsimp only
          exact hr
        | Pair pa pb =>
          simp only [ops_ok, Bool.and_eq_true] at hvok
          obtain ⟨r, c₂, hr, hokr⟩ :=
            ih ((fresh_name (fresh_name c₁ "a").2 "b").2)
              (.Dup (fresh_name c₁ "a").1 l pa
                (.Dup (fresh_name (fresh_name c₁ "a").2 "b").1 l pb
                  (substitute_dp b x
                    (.Pair (.Dp0 (fresh_name c₁ "a").1)
                      (.Dp0 (fresh_name (fresh_name c₁ "a").2 "b").1))
                    (.Pair (.Dp1 (fresh_name c₁ "a").1)
                      (.Dp1 (fresh_name (fresh_name c₁ "a").2 "b").1)))))
              (by
                simp only [ops_ok, Bool.and_eq_true]
                refine ⟨hvok.1, hvok.2,
                  ops_ok_substitute_dp x _ _ ?_ ?_ b h.2⟩ <;> rfl)
          refine ⟨r, c₂, ?_, hokr⟩
          rw [reduce]; try dsimp only
          rw [hval]; try dsimp only
          rw [if_neg hc]; try dsimp only
          exact hr
        | Var n =>
          refine reduce_dup_fall f c c₁ x l v b (.Var n) rfl h.2 ih ?_
          rw [reduce]; try dsimp only
          rw [hval]; try dsimp only
          rw [if_neg hc]; try dsimp only
        | Dp0 n =>
          refine reduce_dup_fall f c c₁ x l v b (.Dp0 n) rfl h.2 ih ?_
          rw [reduce]; try dsimp only
          rw [hval]; try dsimp only
          rw [if_neg hc]; try dsimp only
        | Dp1 n =>
          refine reduce_dup_fall f c c₁ x l v b (.Dp1 n) rfl h.2 ih ?_
          rw [reduce]; try dsimp only
          rw [hval]; try dsimp only
          rw [if_neg hc]; try dsimp only
        | App g1 g2 =>
          refine reduce_dup_fall f c c₁ x l v b (.App g1 g2) hvok h.2 ih ?_
          rw [reduce]; try dsimp only
          rw [hval]; try dsimp only
          rw [if_neg hc]; try dsimp only
        | Dup n' l'' v' b' =>
          refine reduce_dup_fall f c c₁ x l v b (.Dup n' l'' v' b') hvok h.2 ih ?_
          rw [reduce]; try dsimp only
          rw [hval]; try dsimp only
          rw [if_neg hc]; try dsimp only
        | Op2 op' l'' r'' =>
          refine reduce_dup_fall f c c₁ x l v b (.Op2 op' l'' r'') hvok h.2 ih ?_
          rw [reduce]; try dsimp only
          rw [hval]; try dsimp only
          rw [if_neg hc]; try dsimp only
    | Op2 op lt rt =>
      simp only [ops_ok, Bool.and_eq_true] at h
      obtain ⟨⟨hop, hlt⟩, hrt⟩ := h
      obtain ⟨left, c₁, hlred, hlok⟩ := ih c lt hlt
      obtain ⟨right, c₂, hrred, hrok⟩ := ih c₁ rt hrt
      have hbridge : reduce (f + 1) c (.Op2 op lt rt) =
          reduce 1 c₂ (.Op2 op left right) := by
        simp [reduce, hlred, hrred]
      rw [hbridge]
      exact op2_combine_ok op left right c₂ hop hlok hrok

/-- Every iteration of the `evaluate` loop succeeds on a term satisfying the
operator invariant: the loop either stops, or one pass succeeds (by
`reduce_ops_ok`) and hands the loop another term with the invariant. -/
theorem evalGo_ops_ok : ∀ (f c s : Nat) (prev : List Char) (t : Term),
    ops_ok t = true → ∃ r, evalGo f c s prev t = some r := by
  intro f
  induction f with
  | zero => intro c s prev t _; exact ⟨(t, c, s), rfl⟩
  | succ f ih =>
    intro c s prev t h
    by_cases hp : pretty t = prev
    · exact ⟨(t, c, s), evalGo_stop f c s prev t hp⟩
    · obtain ⟨t', c', hred, hok⟩ := reduce_ops_ok reduceFuel c t h
      obtain ⟨r, hr⟩ := ih c' (s + 1) (pretty t) t' hok
      refine ⟨r, ?_⟩
      rw [evalGo_step f c s prev t t' c' hp hred]
      exact hr

/-- `parse_num` always returns a numeral, which trivially satisfies the
operator invariant. -/
theorem parse_num_ops_ok (rest : List Char) (pos : Nat) :
    ops_ok (parse_num rest pos).1 = true := by
  unfold parse_num
  rcases read_digits rest pos with ⟨ds, r, p⟩
  rcases skip_whitespace r p with ⟨r2, p2⟩
  rfl

/-- `parse_var` always returns a leaf (`Var`, `Dp0` or `Dp1`), which
trivially satisfies the operator invariant. -/
theorem parse_var_ops_ok (rest : List Char) (pos : Nat) :
    ops_ok (parse_var rest pos).1 = true := by
  unfold parse_var
  rcases read_name rest pos with ⟨nm, r, p⟩
  dsimp only
  split <;> rfl

/-- `Except`-bind inversion: a successful bind factors through a successful
first component. -/
theorem bind_inv {α β : Type} (e : Except ParseErr α) (g : α → Except ParseErr β)
    (b : β) (h : e >>= g = .ok b) : ∃ a, e = .ok a ∧ g a = .ok b := by
  cases e with
  | error err =>
    rw [show ((Except.error err : Except ParseErr α) >>= g) =
      (.error err : Except ParseErr β) from rfl] at h
    cases h
  | ok a => exact ⟨a, rfl, h⟩

/-- Every term `parse_term` produces satisfies the operator invariant: the
only `Op2` construction site uses one of the four operator characters. -/
theorem parse_term_ops_ok : ∀ (fl : Nat) (rest : List Char) (pos : Nat)
    (t : Term) (r : List Char) (p : Nat),
    parse_term fl rest pos = .ok (t, r, p) → ops_ok t = true := by
  intro fl
  induction fl with
  | zero => intro rest pos t r p h; simp [parse_term] at h
  | succ fl ih =>
    intro rest0 pos0 t r p h
    rw [parse_term] at h
    rcases hsw : skip_whitespace rest0 pos0 with ⟨rest₁, pos₁⟩
    rw [hsw] at h
    cases rest₁ with
    | nil => simp at h
    | cons ch cs =>
      dsimp only at h
      by_cases h1 : List.take 3 (ch :: cs) = ['&', '{', '}']
      · rw [if_pos h1] at h
        obtain ⟨a1, -, h⟩ := bind_inv _ _ _ h
        simp only [Except.ok.injEq, Prod.mk.injEq] at h
        rw [← h.1]
        rfl
      · rw [if_neg h1] at h
        by_cases h2 : ch = '&'
        · -- parse_sup
          rw [if_pos h2] at h
          obtain ⟨a1, -, h⟩ := bind_inv _ _ _ h
          obtain ⟨a2, -, h⟩ := bind_inv _ _ _ h
          obtain ⟨⟨ta, ra, pa⟩, hta, h⟩ := bind_inv _ _ _ h
          obtain ⟨a3, -, h⟩ := bind_inv _ _ _ h
          obtain ⟨⟨tb, rb, pb⟩, htb, h⟩ := bind_inv _ _ _ h
          obtain ⟨a4, -, h⟩ := bind_inv _ _ _ h
          simp only [Except.ok.injEq, Prod.mk.injEq] at h
          rw [← h.1]
          simp only [ops_ok, Bool.and_eq_true]
          exact ⟨ih _ _ _ _ _ hta, ih _ _ _ _ _ htb⟩
        · rw [if_neg h2] at h
          by_cases h3 : ch = '!'
          · -- parse_dup
            rw [if_pos h3] at h
            obtain ⟨a1, -, h⟩ := bind_inv _ _ _ h
            obtain ⟨a2, -, h⟩ := bind_inv _ _ _ h
            obtain ⟨a3, -, h⟩ := bind_inv _ _ _ h
            obtain ⟨⟨tv, rv, pv⟩, htv, h⟩ := bind_inv _ _ _ h
            obtain ⟨a4, -, h⟩ := bind_inv _ _ _ h
            obtain ⟨⟨tb, rb, pb⟩, htb, h⟩ := bind_inv _ _ _ h
            simp only [Except.ok.injEq, Prod.mk.injEq] at h
            rw [← h.1]
            simp only [ops_ok, Bool.and_eq_true]
            exact ⟨ih _ _ _ _ _ htv, ih _ _ _ _ _ htb⟩
          · rw [if_neg h3] at h
            by_cases h4 : (ch = 'λ' || ch = '\\') = true
            · -- parse_lam: the binder-consuming step is an `if` on the
              -- concrete lambda character, giving two identical chains
              rw [if_pos h4] at h
              by_cases hlam : ch = 'λ'
              · rw [if_pos hlam] at h
                obtain ⟨a1, -, h⟩ := bind_inv _ _ _ h
                obtain ⟨a2, -, h⟩ := bind_inv _ _ _ h
                obtain ⟨⟨tb, rb, pb⟩, htb, h⟩ := bind_inv _ _ _ h
                simp only [Except.ok.injEq, Prod.mk.injEq] at h
                rw [← h.1]
                exact ih _ _ tb _ _ htb
              · rw [if_neg hlam] at h
                obtain ⟨a1, -, h⟩ := bind_inv _ _ _ h
                obtain ⟨a2, -, h⟩ := bind_inv _ _ _ h
                obtain ⟨⟨tb, rb, pb⟩, htb, h⟩ := bind_inv _ _ _ h
                simp only [Except.ok.injEq, Prod.mk.injEq] at h
                rw [← h.1]
                exact ih _ _ tb _ _ htb
            · rw [if_neg h4] at h
              by_cases h5 : ch = '('
              · -- parse_paren
                rw [if_pos h5] at h
                obtain ⟨a1, -, h⟩ := bind_inv _ _ _ h
                obtain ⟨⟨t1, r1, p1⟩, ht1, h⟩ := bind_inv _ _ _ h
                split at h
                · -- pair branch
                  obtain ⟨a2, -, h⟩ := bind_inv _ _ _ h
                  obtain ⟨⟨t2, r2, p2⟩, ht2, h⟩ := bind_inv _ _ _ h
                  obtain ⟨a3, -, h⟩ := bind_inv _ _ _ h
                  simp only [Except.ok.injEq, Prod.mk.injEq] at h
                  rw [← h.1]
                  simp only [ops_ok, Bool.and_eq_true]
                  exact ⟨ih _ _ _ _ _ ht1, ih _ _ _ _ _ ht2⟩
                · -- operator / application / end-of-input branches
                  split at h
                  · -- r.head? = some op
                    split at h
                    · -- one of the four operators: Op2
                      rename_i op hcond
                      obtain ⟨a2, -, h⟩ := bind_inv _ _ _ h
                      obtain ⟨⟨t2, r2, p2⟩, ht2, h⟩ := bind_inv _ _ _ h
                      obtain ⟨a3, -, h⟩ := bind_inv _ _ _ h
                      simp only [Except.ok.injEq, Prod.mk.injEq] at h
                      rw [← h.1]
                      simp only [ops_ok, Bool.and_eq_true]
                      refine ⟨⟨?_, ih _ _ _ _ _ ht1⟩, ih _ _ _ _ _ ht2⟩
                      simp only [Bool.or_eq_true, decide_eq_true_eq] at hcond
                      rcases hcond with ((rfl | rfl) | rfl) | rfl <;> decide
                    · -- anything else: App
                      obtain ⟨⟨t2, r2, p2⟩, ht2, h⟩ := bind_inv _ _ _ h
                      obtain ⟨a3, -, h⟩ := bind_inv _ _ _ h
                      simp only [Except.ok.injEq, Prod.mk.injEq] at h
                      rw [← h.1]
                      simp only [ops_ok, Bool.and_eq_true]
                      exact ⟨ih _ _ _ _ _ ht1, ih _ _ _ _ _ ht2⟩
                  · -- r.head? = none: App
                    obtain ⟨⟨t2, r2, p2⟩, ht2, h⟩ := bind_inv _ _ _ h
                    obtain ⟨a3, -, h⟩ := bind_inv _ _ _ h
                    simp only [Except.ok.injEq, Prod.mk.injEq] at h
                    rw [← h.1]
                    simp only [ops_ok, Bool.and_eq_true]
                    exact ⟨ih _ _ _ _ _ ht1, ih _ _ _ _ _ ht2⟩
              · rw [if_neg h5] at h
                by_cases h6 : pyIsDigit ch = true
                · -- numeral
                  rw [if_pos h6] at h
                  simp only [Except.ok.injEq] at h
                  have hnum := parse_num_ops_ok (ch :: cs) pos₁
                  rw [h] at hnum
                  exact hnum
                · rw [if_neg h6] at h
                  by_cases h7 : (pyIsAlpha ch || ch = '_') = true
                  · -- identifier
                    rw [if_pos h7] at h
                    simp only [Except.ok.injEq] at h
                    have hvar := parse_var_ops_ok (ch :: cs) pos₁
                    rw [h] at hvar
                    exact hvar
                  · rw [if_neg h7] at h
                    cases h

/-- `parse` only returns terms satisfying the operator invariant. -/
theorem parse_ops_ok (s : List Char) (t : Term) (h : parse s = .ok t) :
    ops_ok t = true := by
  unfold parse at h
  rcases hsw : skip_whitespace s 0 with ⟨r0, p0⟩
  rw [hsw] at h
  dsimp only at h
  cases hpt : parse_term (s.length + 1) r0 p0 with
  | error e => rw [hpt] at h; cases h
  | ok v =>
    rcases v with ⟨t', r1, p1⟩
    rw [hpt] at h
    dsimp only at h
    rcases hsw2 : skip_whitespace r1 p1 with ⟨r2, p2⟩
    rw [hsw2] at h
    dsimp only at h
    cases r2 with
    | nil =>
      simp only [Except.ok.injEq] at h
      rw [← h]
      exact parse_term_ops_ok _ _ _ _ _ _ hpt
    | cons d ds => cases h

/-- C9: every term reachable from a parsed input carries only the four known
operators on its `Op2` nodes, so the `ValueError` branch of `compute_op` is
unreachable and normalisation of a parsed term never raises: `parse` yields
a term satisfying the operator invariant, and `evaluate` returns a result
(never the `none` that models an escaped `ValueError`) on it, from any
fresh-name counter. -/
theorem C9_no_value_error (s : List Char) (t : Term) (c : Nat)
    (h : parse s = .ok t) :
    ops_ok t = true ∧ ∃ r, evaluate c t = some r := by
  have hok := parse_ops_ok s t h
  exact ⟨hok, evalGo_ops_ok 10000 c 0 noneStr t hok⟩

/-- C9 (witness): the theorem evaluated on the parsed input `(1 + 2)`. -/
theorem C9_witness :
    parse ['(', '1', ' ', '+', ' ', '2', ')'] = .ok (.Op2 "+" (.Num 1) (.Num 2)) ∧
      (ops_ok (.Op2 "+" (.Num 1) (.Num 2)) = true ∧
        ∃ r, evaluate 0 (.Op2 "+" (.Num 1) (.Num 2)) = some r) :=
  ⟨rfl, C9_no_value_error ['(', '1', ' ', '+', ' ', '2', ')']
    (.Op2 "+" (.Num 1) (.Num 2)) 0 rfl⟩
end IC
